import Mathlib

/-! go-i18n: message file parser and lazy template cache

A shallow embedding of `v2/internal/parse.go` (`parsePath`, `ParseMessageFileBytes`) and of
`i18n/template.go` (`Template.parse`), with the properties of the specification stated
over it.

Go strings are byte sequences and `parsePath` indexes them by byte, so a string is a list
of byte values here.
-/

set_option autoImplicit false
set_option linter.dupNamespace false

namespace GoI18n

/-! ## Strings -/

/-- A Go `string` (and a `[]byte`): the sequence of its bytes, each a natural below 256. -/
abbrev GoString := List Nat

/-- The bytes of an ASCII literal, used to write concrete paths. -/
def ascii (s : String) : GoString := s.toList.map Char.toNat

/-- The byte of the character `.`. -/
def dot : Nat := 46

/-- The operating systems `os.IsPathSeparator` distinguishes: on Windows both `/` and `\`
separate path elements, everywhere else only `/` does. -/
inductive GOOS where
  | unix
  | windows
  deriving DecidableEq, Repr

/-- Go `os.IsPathSeparator(c)`: `c == '/'` on Unix and Plan 9,
`c == '\\' || c == '/'` on Windows. -/
def IsPathSeparator (goos : GOOS) (c : Nat) : Bool :=
  match goos with
  | GOOS.unix => c == 47
  | GOOS.windows => c == 92 || c == 47

/-- Go slice expression `s[lo:hi]` on a string, for `lo ≤ hi ≤ len(s)` (otherwise Go
panics; `parsePath` only slices between an index it has passed and one it is at). -/
def slice (s : GoString) (lo hi : Nat) : GoString := (s.take hi).drop lo

/-! ## `parsePath` -/

/-- The loop of `parsePath` together with the code after it.

The first numeric argument is `i + 1` for the loop index `i`, so `0` is the state in which
the condition `i >= 0` fails and the loop is left. `formatStartIdx` and `format` are the
local variables of the source; `langTag` is still the empty string whenever the loop is
running, because every assignment to it inside the loop is followed by `return`. -/
def parsePathLoop (goos : GOOS) (path : GoString) :
    Nat → Int → GoString → GoString × GoString
  | 0, formatStartIdx, format =>
    if formatStartIdx != -1 then
      (slice path 0 formatStartIdx.toNat, format)
    else
      ([], format)
  | i + 1, formatStartIdx, format =>
    let c := path.getD i 0
    if IsPathSeparator goos c then
      if formatStartIdx != -1 then
        (slice path (i + 1) formatStartIdx.toNat, format)
      else
        ([], format)
    else if c == dot then
      if formatStartIdx != -1 then
        (slice path (i + 1) formatStartIdx.toNat, format)
      else
        parsePathLoop goos path i (i : Int) (path.drop (i + 1))
    else
      parsePathLoop goos path i formatStartIdx format

/-- Go `parsePath(path)`: the pair `(langTag, format)`. The scan starts at the last byte
with `formatStartIdx = -1` and both results empty. -/
def parsePath (goos : GOOS) (path : GoString) : GoString × GoString :=
  parsePathLoop goos path path.length (-1) []

/-- The file name of a path: what follows its last path separator, or the whole path when
it has none. -/
def fileName (goos : GOOS) (path : GoString) : GoString :=
  (path.reverse.takeWhile (fun c => !IsPathSeparator goos c)).reverse

/-! ## Decoded values, messages and errors -/

/-- The value a decoder stores into `var raw interface{}`, by dynamic type. The three
shapes the parser accepts are `map[string]interface{}`, `map[interface{}]interface{}` and
`[]interface{}`; a map is the list of its entries in the order in which `range` visits
them in the run at hand. Every other dynamic type takes the `default` branch of the type
switch, like the four kinds listed first. -/
inductive Raw where
  | nil
  | bool (b : Bool)
  | int (n : Int)
  | str (s : GoString)
  | strMap (entries : List (GoString × Raw))
  | ifaceMap (entries : List (Raw × Raw))
  | slice (elems : List Raw)

/-- The type assertion `strid, ok := id.(string)`: whether `ok` is true. -/
def Raw.isString : Raw → Bool
  | Raw.str _ => true
  | _ => false

/-- A `Message`: its `ID`, and every other field as one value of type `F` (the parser only
ever writes `ID`). -/
structure Message (F : Type) where
  ID : GoString
  fields : F

/-- Go `MessageFile`, with `L` for `language.Tag`. -/
structure MessageFile (L F : Type) where
  Path : GoString
  Tag : L
  Format : GoString
  Messages : List (Message F)

/-- The `error` values `ParseMessageFileBytes` returns: one handed over unchanged from
`language.Parse`, from the unmarshal function or from `NewMessage` (`E` is the type of
those), or one of the three built with `fmt.Errorf`. -/
inductive ParseError (E : Type) where
  /-- An error returned by a collaborator, passed on as it is. -/
  | ext (err : E)
  /-- The error `fmt.Errorf("no unmarshaler registered for %s", messageFile.Format)`. -/
  | noUnmarshaler (format : GoString)
  /-- The error `fmt.Errorf("expected key to be string but got %#v", id)`. -/
  | keyNotString (id : Raw)
  /-- The error `fmt.Errorf("unsupported file format %T", raw)`. -/
  | unsupportedFileFormat (raw : Raw)

/-- Go `UnmarshalFunc`, called as `unmarshalFunc(buf, &raw)` with `raw` the nil interface:
the value `raw` holds afterwards and the error returned. -/
abbrev UnmarshalFunc (E : Type) := GoString → Raw × Option E

/-- Go `map[string]UnmarshalFunc` as its list of entries; an entry may hold a nil
function. -/
abbrev UnmarshalFuncs (E : Type) := List (GoString × Option (UnmarshalFunc E))

/-- Go index expression `unmarshalFuncs[key]`: the zero value (a nil function) when the key
has no entry. -/
def mapIndex {E : Type} (m : UnmarshalFuncs E) (key : GoString) : Option (UnmarshalFunc E) :=
  match m.lookup key with
  | some f => f
  | none => none

/-- A call made to a collaborator, recorded in the order in which calls happen. -/
inductive Call where
  | languageParse (s : GoString)
  | unmarshal (format : GoString) (data : GoString)
  | NewMessage (data : Raw)

/-- The collaborators of `ParseMessageFileBytes` that are not arguments: the platform of
`os.IsPathSeparator`, `language.Parse`, and `NewMessage`, which returns a message exactly
when it returns no error. -/
structure Externals (L E F : Type) where
  goos : GOOS
  languageParse : GoString → Except E L
  NewMessage : Raw → Except E (Message F)

/-- The statement `for id, data := range data` of the `map[string]interface{}` case, from
the entries still to visit, the value of `messageFile.Messages` and the calls made so far.
An error leaves the function at once. -/
def rangeStringMap {E F : Type} (NewMessage : Raw → Except E (Message F)) :
    List (GoString × Raw) → List (Message F) → List Call →
    Except (ParseError E) (List (Message F)) × List Call
  | [], messages, calls => (Except.ok messages, calls)
  | (id, data) :: rest, messages, calls =>
    match NewMessage data with
    | Except.error err => (Except.error (ParseError.ext err), calls ++ [Call.NewMessage data])
    | Except.ok m =>
      rangeStringMap NewMessage rest (messages ++ [{ m with ID := id }])
        (calls ++ [Call.NewMessage data])

/-- The `range` statement of the `map[interface{}]interface{}` case: the type assertion
`id.(string)` comes before the call of `NewMessage`. -/
def rangeInterfaceMap {E F : Type} (NewMessage : Raw → Except E (Message F)) :
    List (Raw × Raw) → List (Message F) → List Call →
    Except (ParseError E) (List (Message F)) × List Call
  | [], messages, calls => (Except.ok messages, calls)
  | (id, data) :: rest, messages, calls =>
    match id with
    | Raw.str strid =>
      match NewMessage data with
      | Except.error err => (Except.error (ParseError.ext err), calls ++ [Call.NewMessage data])
      | Except.ok m =>
        rangeInterfaceMap NewMessage rest (messages ++ [{ m with ID := strid }])
          (calls ++ [Call.NewMessage data])
    | _ => (Except.error (ParseError.keyNotString id), calls)

/-- The `range` statement of the `[]interface{}` case: the message is appended as
`NewMessage` returned it. -/
def rangeSlice {E F : Type} (NewMessage : Raw → Except E (Message F)) :
    List Raw → List (Message F) → List Call →
    Except (ParseError E) (List (Message F)) × List Call
  | [], messages, calls => (Except.ok messages, calls)
  | data :: rest, messages, calls =>
    match NewMessage data with
    | Except.error err => (Except.error (ParseError.ext err), calls ++ [Call.NewMessage data])
    | Except.ok m =>
      rangeSlice NewMessage rest (messages ++ [m]) (calls ++ [Call.NewMessage data])

/-- The end of `ParseMessageFileBytes` after a `range` statement: `return messageFile, nil`
with the messages collected, or the error the loop returned. -/
def finish {L E F : Type} (messageFile : MessageFile L F)
    (r : Except (ParseError E) (List (Message F)) × List Call) :
    Except (ParseError E) (MessageFile L F) × List Call :=
  match r.1 with
  | Except.ok messages => (Except.ok { messageFile with Messages := messages }, r.2)
  | Except.error err => (Except.error err, r.2)

/-- Go `ParseMessageFileBytes(buf, path, unmarshalFuncs)`: the pair it returns (an error
stands for `nil, err`, a message file for `messageFile, nil`) and the calls it made to its
collaborators. A nil `unmarshalFuncs` is `none`. -/
def ParseMessageFileBytes {L E F : Type} (x : Externals L E F) (buf path : GoString)
    (unmarshalFuncs : Option (UnmarshalFuncs E)) :
    Except (ParseError E) (MessageFile L F) × List Call :=
  let lang := (parsePath x.goos path).1
  let format := (parsePath x.goos path).2
  match x.languageParse lang with
  | Except.error err => (Except.error (ParseError.ext err), [Call.languageParse lang])
  | Except.ok tag =>
    let messageFile : MessageFile L F :=
      { Path := path, Tag := tag, Format := format, Messages := [] }
    if buf.length == 0 then
      (Except.ok messageFile, [Call.languageParse lang])
    else
      let unmarshalFunc : Option (UnmarshalFunc E) :=
        match unmarshalFuncs with
        | some m => mapIndex m messageFile.Format
        | none => none
      match unmarshalFunc with
      | none =>
        (Except.error (ParseError.noUnmarshaler messageFile.Format), [Call.languageParse lang])
      | some f =>
        let calls := [Call.languageParse lang, Call.unmarshal messageFile.Format buf]
        match (f buf).2 with
        | some err => (Except.error (ParseError.ext err), calls)
        | none =>
          match (f buf).1 with
          | Raw.strMap data => finish messageFile (rangeStringMap x.NewMessage data [] calls)
          | Raw.ifaceMap data => finish messageFile (rangeInterfaceMap x.NewMessage data [] calls)
          | Raw.slice data => finish messageFile (rangeSlice x.NewMessage data [] calls)
          | raw => (Except.error (ParseError.unsupportedFileFormat raw), calls)

/-! ## `Template.parse` -/

/-- Go `strings.Contains(s, substr)`: `substr` occurs in `s` as a run of consecutive
bytes. -/
def Contains (s substr : GoString) : Bool := decide (substr <:+: s)

/-- Go `Template`, with `C` for `*gotemplate.Template` without nil and `E` for non-nil
`error` values. `ParseErr` is a `*error`: `none` is the nil pointer, `some none` a pointer
to a nil error, `some (some e)` a pointer to the error `e`. -/
structure Template (C E : Type) where
  Src : GoString
  Template : Option C
  ParseErr : Option (Option E)

/-- One call `gotemplate.New("").Delims(leftDelim, rightDelim).Parse(src)`. -/
structure EngineCall where
  src : GoString
  leftDelim : GoString
  rightDelim : GoString
  deriving DecidableEq

/-- The template engine: the pair `(gt, err)` that
`gotemplate.New("").Delims(leftDelim, rightDelim).Parse(src)` returns. -/
abbrev Engine (C E : Type) := GoString → GoString → GoString → Option C × Option E

/-- What a call of `parse` does: the receiver `*t` afterwards, the error returned, and the
calls made to the template engine. -/
structure ParseReturn (C E : Type) where
  t : Template C E
  err : Option E
  engineCalls : List EngineCall

/-- The `if t.ParseErr == nil` statement of `parse`: the receiver afterwards and the engine
calls made. -/
def parseBody {C E : Type} (engine : Engine C E) (t : Template C E)
    (leftDelim rightDelim : GoString) : Template C E × List EngineCall :=
  match t.ParseErr with
  | none =>
    if Contains t.Src leftDelim then
      let r := engine t.Src leftDelim rightDelim
      ({ t with Template := r.1, ParseErr := some r.2 },
        [{ src := t.Src, leftDelim := leftDelim, rightDelim := rightDelim }])
    else
      ({ t with ParseErr := some none }, [])
  | some _ => (t, [])

/-- Go `(t *Template) parse(leftDelim, rightDelim)`. The last statement `return *t.ParseErr`
dereferences the pointer, so the call returns nothing (`none`, a panic) if the pointer is
nil there. -/
def Template.parse {C E : Type} (engine : Engine C E) (t : GoI18n.Template C E)
    (leftDelim rightDelim : GoString) : Option (ParseReturn C E) :=
  let r := parseBody engine t leftDelim rightDelim
  match r.1.ParseErr with
  | none => none
  | some err => some { t := r.1, err := err, engineCalls := r.2 }


/-- A caller that calls `parse` on one template once for each delimiter pair of a list, in
turn: the template at the end, the errors the calls returned and the engine calls made. -/
def parseEach {C E : Type} (engine : Engine C E) :
    Template C E → List (GoString × GoString) →
    Option (Template C E × List (Option E) × List EngineCall)
  | t, [] => some (t, [], [])
  | t, d :: ds =>
    match Template.parse engine t d.1 d.2 with
    | none => none
    | some ret =>
      match parseEach engine ret.t ds with
      | none => none
      | some out => some (out.1, ret.err :: out.2.1, ret.engineCalls ++ out.2.2)

/-! ## Concrete collaborators for worked examples -/

/-- A stand-in for `language.Parse` that accepts the tags `en` and `en-US` only. -/
def stubLanguageParse (s : GoString) : Except GoString GoString :=
  if s = ascii "en" ∨ s = ascii "en-US" then Except.ok s
  else Except.error (ascii "language: tag is not well-formed")

/-- A stand-in for `NewMessage`: a string becomes a message whose `ID` is that string, a
string-keyed map an unnamed message `constructed`, anything else is an error. -/
def stubNewMessage (data : Raw) : Except GoString (Message GoString) :=
  match data with
  | Raw.str s => Except.ok { ID := s, fields := ascii "from string" }
  | Raw.strMap _ => Except.ok { ID := ascii "constructed", fields := ascii "from map" }
  | _ => Except.error (ascii "unsupported type")

/-- Stand-in collaborators on Unix. -/
def stubExternals : Externals GoString GoString GoString :=
  { goos := GOOS.unix, languageParse := stubLanguageParse, NewMessage := stubNewMessage }

/-- A decoder that yields the string-keyed map with the one entry `hello`. -/
def stubUnmarshalMap : UnmarshalFunc GoString :=
  fun _ => (Raw.strMap [(ascii "hello", Raw.strMap [])], none)

/-- A decoder that yields a list of two elements. -/
def stubUnmarshalList : UnmarshalFunc GoString :=
  fun _ => (Raw.slice [Raw.str (ascii "a"), Raw.str (ascii "b")], none)

/-- A registry with a map decoder for `json`, a list decoder for `yaml` and a nil decoder
for `toml`. -/
def stubUnmarshalFuncs : UnmarshalFuncs GoString :=
  [(ascii "json", some stubUnmarshalMap), (ascii "yaml", some stubUnmarshalList),
    (ascii "toml", none)]

/-- The default left delimiter, two opening braces. -/
def leftBraces : GoString := [123, 123]

/-- The default right delimiter, two closing braces. -/
def rightBraces : GoString := [125, 125]

/-- The source `Hello ` followed by the action `.Name` between the default delimiters. -/
def helloName : GoString := ascii "Hello " ++ leftBraces ++ ascii ".Name" ++ rightBraces

/-- The source `helloName` without its right delimiter. -/
def helloUnclosed : GoString := ascii "Hello " ++ leftBraces ++ ascii ".Name"

/-- A stand-in template engine: it fails when the source lacks the right delimiter and
otherwise returns the source as the compiled form. -/
def stubEngine : Engine GoString GoString :=
  fun src _ rightDelim =>
    if Contains src rightDelim then (some src, none)
    else (none, some (ascii "unclosed action"))

/-- A decoder that ignores its input: it stores `raw` and returns `err`. -/
def stubUnmarshalConst (raw : Raw) (err : Option GoString) : UnmarshalFunc GoString :=
  fun _ => (raw, err)

/-- A registry of decoders with fixed results, one per format name: nothing stored, a
number, a string, a decoder error, untyped-key maps, and a list whose second element the
stand-in constructor rejects. -/
def stubUnmarshalFuncsMore : UnmarshalFuncs GoString :=
  [(ascii "nil", some (stubUnmarshalConst Raw.nil none)),
    (ascii "int", some (stubUnmarshalConst (Raw.int 7) none)),
    (ascii "str", some (stubUnmarshalConst (Raw.str (ascii "text")) none)),
    (ascii "err", some (stubUnmarshalConst Raw.nil (some (ascii "decode error")))),
    (ascii "ymap", some (stubUnmarshalConst
      (Raw.ifaceMap [(Raw.str (ascii "a"), Raw.int 1), (Raw.int 5, Raw.strMap [])]) none)),
    (ascii "ykey", some (stubUnmarshalConst
      (Raw.ifaceMap [(Raw.str (ascii "a"), Raw.strMap []), (Raw.int 5, Raw.strMap [])]) none)),
    (ascii "yaml", some (stubUnmarshalConst
      (Raw.ifaceMap [(Raw.str (ascii "hello"), Raw.strMap [])]) none)),
    (ascii "list", some (stubUnmarshalConst
      (Raw.slice [Raw.str (ascii "a"), Raw.int 1, Raw.bool true]) none))]

/-- A registry of decoders whose maps hold a value the stand-in constructor rejects: a
string-keyed map under `smap` and an untyped-key map under `imap`, each with the entries
`ok`, `bad` and a later one, in that order. -/
def stubUnmarshalFuncsFailing : UnmarshalFuncs GoString :=
  [(ascii "smap", some (stubUnmarshalConst
      (Raw.strMap [(ascii "ok", Raw.strMap []), (ascii "bad", Raw.int 1),
        (ascii "later", Raw.strMap [])]) none)),
    (ascii "imap", some (stubUnmarshalConst
      (Raw.ifaceMap [(Raw.str (ascii "ok"), Raw.strMap []), (Raw.str (ascii "bad"), Raw.int 1),
        (Raw.int 5, Raw.strMap [])]) none))]

/-! ## Facts about `parsePath` -/

theorem isPathSeparator_dot (goos : GOOS) : IsPathSeparator goos dot = false := by
  cases goos <;> decide

theorem getD_append_mid (pre post : GoString) (c : Nat) :
    (pre ++ c :: post).getD pre.length 0 = c := by
  induction pre with
  | nil => rfl
  | cons a t ih => simpa using ih

/-- The body of the loop at a byte that is neither a separator nor a dot only decrements
the index. -/
theorem parsePathLoop_plain (goos : GOOS) (pre post : GoString) (c : Nat) (fsi : Int)
    (fmt : GoString) (hdot : c ≠ dot) (hsep : IsPathSeparator goos c = false) :
    parsePathLoop goos (pre ++ c :: post) (pre.length + 1) fsi fmt
      = parsePathLoop goos (pre ++ c :: post) pre.length fsi fmt := by
  have hget := getD_append_mid pre post c
  rw [parsePathLoop]
  simp only [hget, hsep]
  simp [hdot]

/-- The loop runs over a stretch of bytes that are neither separators nor dots without
changing its variables. -/
theorem parsePathLoop_skip (goos : GOOS) (mid : GoString) :
    (∀ c ∈ mid, c ≠ dot ∧ IsPathSeparator goos c = false) →
    ∀ (pre post : GoString) (fsi : Int) (fmt : GoString),
      parsePathLoop goos (pre ++ mid ++ post) (pre.length + mid.length) fsi fmt
        = parsePathLoop goos (pre ++ mid ++ post) pre.length fsi fmt := by
  induction mid using List.reverseRecOn with
  | nil => intro _ pre post fsi fmt; simp
  | append_singleton m c ih =>
    intro hmid pre post fsi fmt
    have hc := hmid c (by simp)
    have hm : ∀ d ∈ m, d ≠ dot ∧ IsPathSeparator goos d = false :=
      fun d hd => hmid d (by simp [hd])
    have e1 : pre ++ (m ++ [c]) ++ post = (pre ++ m) ++ c :: post := by simp
    have e2 : pre.length + (m ++ [c]).length = (pre ++ m).length + 1 := by
      simp; omega
    rw [e1, e2, parsePathLoop_plain goos (pre ++ m) post c fsi fmt hc.1 hc.2]
    have h := ih hm pre (c :: post) fsi fmt
    simpa using h

/-- The first dot met by the scan fixes `format` and `formatStartIdx`. -/
theorem parsePathLoop_firstDot (goos : GOOS) (pre post fmt : GoString) :
    parsePathLoop goos (pre ++ dot :: post) (pre.length + 1) (-1) fmt
      = parsePathLoop goos (pre ++ dot :: post) pre.length (pre.length : Int) post := by
  have hget := getD_append_mid pre post dot
  rw [parsePathLoop]
  simp only [hget, isPathSeparator_dot]
  simp

theorem slice_mid (a b c : GoString) :
    slice (a ++ b ++ c) a.length (a.length + b.length) = b := by
  have h : (a ++ b ++ c).take (a.length + b.length) = a ++ b := by
    rw [← List.length_append, List.take_left]
  rw [slice, h]
  simp

theorem natCast_ne_negOne (k : Nat) : ((k : Int) != -1) = true := by
  have h : (k : Int) ≠ -1 := by omega
  simp [h]

/-- With `formatStartIdx` set, the scan stops at the start of the string, at a separator
or at a second dot, and the locale is what lies between that place and the format dot. -/
theorem parsePathLoop_stop (goos : GOOS) (p lang rest fmt : GoString)
    (hp : p = [] ∨ ∃ q c, p = q ++ [c] ∧ (c = dot ∨ IsPathSeparator goos c = true)) :
    parsePathLoop goos (p ++ lang ++ rest) p.length ((p ++ lang).length : Int) fmt
      = (lang, fmt) := by
  rcases hp with rfl | ⟨q, c, rfl, hc⟩
  · have h := slice_mid [] lang rest
    simp only [List.nil_append, List.length_nil, Nat.zero_add] at h
    rw [List.length_nil, parsePathLoop]
    simp [natCast_ne_negOne, h]
  · have e1 : q ++ [c] ++ lang ++ rest = q ++ c :: (lang ++ rest) := by simp
    have hget := getD_append_mid q (lang ++ rest) c
    have hs := slice_mid (q ++ [c]) lang rest
    have e2 : (q ++ [c]).length + lang.length = (q ++ [c] ++ lang).length := by
      simp only [List.length_append]
    have e3 : (q ++ [c]).length = q.length + 1 := by simp
    rw [e2, e3, e1] at hs
    rw [e3, e1, parsePathLoop]
    simp only [hget, natCast_ne_negOne, Int.toNat_ofNat, if_true, hs]
    rcases hc with rfl | hsep
    · simp [isPathSeparator_dot]
    · simp [hsep]

/-- The two dot-separated segments at the end of a path are the results of `parsePath`,
whatever precedes them, provided it is empty or ends in a separator or a dot. -/
theorem parsePath_segments (goos : GOOS) (p lang format : GoString)
    (hlang : ∀ c ∈ lang, c ≠ dot ∧ IsPathSeparator goos c = false)
    (hformat : ∀ c ∈ format, c ≠ dot ∧ IsPathSeparator goos c = false)
    (hp : p = [] ∨ ∃ q c, p = q ++ [c] ∧ (c = dot ∨ IsPathSeparator goos c = true)) :
    parsePath goos (p ++ lang ++ dot :: format) = (lang, format) := by
  have s1 := parsePathLoop_skip goos format hformat (p ++ lang ++ [dot]) [] (-1) []
  have s2 := parsePathLoop_firstDot goos (p ++ lang) format []
  have s3 := parsePathLoop_skip goos lang hlang p (dot :: format) ((p ++ lang).length : Int)
    format
  have s4 := parsePathLoop_stop goos p lang (dot :: format) format hp
  have e1 : p ++ lang ++ [dot] ++ format ++ [] = p ++ lang ++ dot :: format := by simp
  have e2 : (p ++ lang ++ [dot]).length + format.length
      = (p ++ lang ++ dot :: format).length := by
    simp only [List.length_append, List.length_cons, List.length_nil]; omega
  have e3 : (p ++ lang ++ [dot]).length = (p ++ lang).length + 1 := by
    simp only [List.length_append, List.length_cons, List.length_nil]
  have e4 : p.length + lang.length = (p ++ lang).length := by simp
  rw [e1, e2, e3] at s1
  rw [e4] at s3
  rw [parsePath, s1, s2, s3, s4]

/-! ## Facts about file names -/

theorem dropWhile_head_false {α : Type} (f : α → Bool) (c : α) (t : List α) :
    ∀ l : List α, l.dropWhile f = c :: t → f c = false := by
  intro l
  induction l with
  | nil => intro h; simp at h
  | cons a l ih =>
    intro h
    by_cases ha : f a = true
    · rw [List.dropWhile_cons_of_pos ha] at h
      exact ih h
    · rw [List.dropWhile_cons_of_neg ha] at h
      injection h with h1 _
      subst h1
      simpa using ha

/-- A path is its file name after a part that is empty or ends in a separator. -/
theorem fileName_split (goos : GOOS) (path : GoString) :
    ∃ p, path = p ++ fileName goos path ∧
      (p = [] ∨ ∃ q c, p = q ++ [c] ∧ (c = dot ∨ IsPathSeparator goos c = true)) := by
  refine ⟨(path.reverse.dropWhile (fun c => !IsPathSeparator goos c)).reverse, ?_, ?_⟩
  · rw [fileName, ← List.reverse_append, List.takeWhile_append_dropWhile, List.reverse_reverse]
  · cases h : path.reverse.dropWhile (fun c => !IsPathSeparator goos c) with
    | nil => left; rfl
    | cons c t =>
      right
      refine ⟨t.reverse, c, by simp, Or.inr ?_⟩
      have hc := dropWhile_head_false (fun c => !IsPathSeparator goos c) c t _ h
      simpa using hc

theorem fileName_noSeparator (goos : GOOS) (path : GoString) :
    ∀ c ∈ fileName goos path, IsPathSeparator goos c = false := by
  intro c hc
  rw [fileName, List.mem_reverse] at hc
  have h := List.mem_takeWhile_imp hc
  simpa using h

/-- A string with exactly one dot is the text before the dot, the dot, and the text after
it, and neither text has a dot. -/
theorem oneDot_split (name : GoString) (h : name.count dot = 1) :
    name = name.takeWhile (fun c => c != dot) ++ dot ::
        (name.dropWhile (fun c => c != dot)).drop 1 ∧
      (∀ c ∈ name.takeWhile (fun c => c != dot), c ≠ dot) ∧
      (∀ c ∈ (name.dropWhile (fun c => c != dot)).drop 1, c ≠ dot) := by
  have hsplit := List.takeWhile_append_dropWhile (fun c => c != dot) name
  have htake : ∀ c ∈ name.takeWhile (fun c => c != dot), c ≠ dot := by
    intro c hc
    have h1 := List.mem_takeWhile_imp hc
    simpa using h1
  have hcount0 : (name.takeWhile (fun c => c != dot)).count dot = 0 :=
    List.count_eq_zero.mpr (fun hmem => htake dot hmem rfl)
  have hcount : (name.dropWhile (fun c => c != dot)).count dot = 1 := by
    have h2 := congrArg (List.count dot) hsplit
    rw [List.count_append, hcount0, h] at h2
    omega
  cases hd : name.dropWhile (fun c => c != dot) with
  | nil => rw [hd] at hcount; simp at hcount
  | cons c t =>
    have hc := dropWhile_head_false (fun c => c != dot) c t name hd
    have hc2 : c = dot := by simpa using hc
    subst hc2
    rw [hd] at hcount hsplit
    refine ⟨?_, htake, ?_⟩
    · simpa using hsplit.symm
    · have h3 : t.count dot = 0 := by
        rw [List.count_cons_self] at hcount
        omega
      intro c hc hcd
      subst hcd
      exact List.count_eq_zero.mp h3 (by simpa using hc)

/-! ## Facts about the `range` statements -/

/-- If `NewMessage` succeeds on every value, the string-keyed loop appends one message per
entry, in order, each with the entry key as `ID`, and calls `NewMessage` once per entry. -/
theorem rangeStringMap_ok {E F : Type} (NewMessage : Raw → Except E (Message F)) :
    ∀ (entries : List (GoString × Raw)) (acc : List (Message F)) (calls : List Call),
      (∀ e ∈ entries, ∃ m, NewMessage e.2 = Except.ok m) →
      ∃ ms, rangeStringMap NewMessage entries acc calls
          = (Except.ok (acc ++ ms), calls ++ entries.map (fun e => Call.NewMessage e.2)) ∧
        List.Forall₂ (fun e m => ∃ m0, NewMessage e.2 = Except.ok m0 ∧
          m = { m0 with ID := e.1 }) entries ms := by
  intro entries
  induction entries with
  | nil => intro acc calls _; exact ⟨[], by simp [rangeStringMap], List.Forall₂.nil⟩
  | cons e rest ih =>
    intro acc calls h
    obtain ⟨m0, hm0⟩ := h e (by simp)
    obtain ⟨ms, hms, hall⟩ := ih (acc ++ [{ m0 with ID := e.1 }])
      (calls ++ [Call.NewMessage e.2]) (fun e1 h1 => h e1 (by simp [h1]))
    refine ⟨{ m0 with ID := e.1 } :: ms, ?_, List.Forall₂.cons ⟨m0, hm0, rfl⟩ hall⟩
    obtain ⟨id, data⟩ := e
    simp only [rangeStringMap]
    simp only [] at hm0 hms
    rw [hm0]
    simp only []
    rw [hms]
    simp

/-- If `NewMessage` succeeds on every element, the list loop appends its results in order,
unchanged. -/
theorem rangeSlice_ok {E F : Type} (NewMessage : Raw → Except E (Message F)) :
    ∀ (elems : List Raw) (acc : List (Message F)) (calls : List Call),
      (∀ d ∈ elems, ∃ m, NewMessage d = Except.ok m) →
      ∃ ms, rangeSlice NewMessage elems acc calls
          = (Except.ok (acc ++ ms), calls ++ elems.map (fun d => Call.NewMessage d)) ∧
        List.Forall₂ (fun d m => NewMessage d = Except.ok m) elems ms := by
  intro elems
  induction elems with
  | nil => intro acc calls _; exact ⟨[], by simp [rangeSlice], List.Forall₂.nil⟩
  | cons d rest ih =>
    intro acc calls h
    obtain ⟨m0, hm0⟩ := h d (by simp)
    obtain ⟨ms, hms, hall⟩ := ih (acc ++ [m0]) (calls ++ [Call.NewMessage d])
      (fun e1 h1 => h e1 (by simp [h1]))
    refine ⟨m0 :: ms, ?_, List.Forall₂.cons hm0 hall⟩
    simp only [rangeSlice]
    rw [hm0]
    simp only []
    rw [hms]
    simp

theorem forall₂_map_ID {E F : Type} (NewMessage : Raw → Except E (Message F))
    (entries : List (GoString × Raw)) (ms : List (Message F))
    (h : List.Forall₂ (fun e m => ∃ m0, NewMessage e.2 = Except.ok m0 ∧
      m = { m0 with ID := e.1 }) entries ms) :
    ms.map (fun m => m.ID) = entries.map (fun e => e.1) := by
  induction h with
  | nil => rfl
  | cons h _ ih =>
    obtain ⟨m0, _, hm⟩ := h
    simp [hm, ih]

theorem forall₂_map_ok {E F : Type} (NewMessage : Raw → Except E (Message F))
    (elems : List Raw) (ms : List (Message F))
    (h : List.Forall₂ (fun d m => NewMessage d = Except.ok m) elems ms) :
    elems.map NewMessage = ms.map Except.ok := by
  induction h with
  | nil => rfl
  | cons h _ ih => simp [h, ih]

theorem length_beq_zero_of_ne_nil (buf : GoString) (h : buf ≠ []) :
    (buf.length == 0) = false := by
  cases buf with
  | nil => exact absurd rfl h
  | cons a t => rfl

/-! ## Path inference -/

/-- C1: for `lang` and `format` that contain neither a dot nor a path separator, and a
leading part `p` that is empty or ends in a path separator or in a dot,
`parsePath (p ++ lang ++ "." ++ format)` is exactly `(lang, format)`. -/
theorem parsePath_locale_format (goos : GOOS) (p lang format : GoString)
    (hlang : ∀ c ∈ lang, c ≠ dot ∧ IsPathSeparator goos c = false)
    (hformat : ∀ c ∈ format, c ≠ dot ∧ IsPathSeparator goos c = false)
    (hp : p = [] ∨ ∃ q c, p = q ++ [c] ∧ (c = dot ∨ IsPathSeparator goos c = true)) :
    parsePath goos (p ++ lang ++ [dot] ++ format) = (lang, format) := by
  have h := parsePath_segments goos p lang format hlang hformat hp
  simpa using h

/-- C1 at `en-US.json` (empty leading part) and at `path/to/active.en.toml` (leading part
`path/to/active.`, which ends in a dot). -/
theorem parsePath_locale_format_witness :
    parsePath GOOS.unix (ascii "en-US.json") = (ascii "en-US", ascii "json") ∧
      parsePath GOOS.unix (ascii "path/to/active.en.toml") = (ascii "en", ascii "toml") :=
  ⟨parsePath_locale_format GOOS.unix [] (ascii "en-US") (ascii "json")
      (by decide) (by decide) (Or.inl rfl),
    parsePath_locale_format GOOS.unix (ascii "path/to/active.") (ascii "en") (ascii "toml")
      (by decide) (by decide)
      (Or.inr ⟨ascii "path/to/active", dot, by decide, Or.inl rfl⟩)⟩

/-- C2 fails as stated: the file name `active.json` has exactly one dot, and `parsePath`
returns the locale `active` for it, not the empty string. -/
theorem parsePath_oneDot_counterexample :
    (fileName GOOS.unix (ascii "active.json")).count dot = 1 ∧
      parsePath GOOS.unix (ascii "active.json") = (ascii "active", ascii "json") ∧
      parsePath GOOS.unix (ascii "active.json") ≠ ([], ascii "json") := by
  decide

/-- C2, amended: for a path whose file name contains exactly one dot, `parsePath` returns
as locale the part of the file name before that dot and as format the part after it. -/
theorem parsePath_oneDot (goos : GOOS) (path : GoString)
    (h : (fileName goos path).count dot = 1) :
    parsePath goos path
      = ((fileName goos path).takeWhile (fun c => c != dot),
          ((fileName goos path).dropWhile (fun c => c != dot)).drop 1) := by
  obtain ⟨p, hpath, hp⟩ := fileName_split goos path
  obtain ⟨hname, hbefore, hafter⟩ := oneDot_split (fileName goos path) h
  have hsep := fileName_noSeparator goos path
  have hlang : ∀ c ∈ (fileName goos path).takeWhile (fun c => c != dot),
      c ≠ dot ∧ IsPathSeparator goos c = false :=
    fun c hc => ⟨hbefore c hc, hsep c ((List.takeWhile_sublist _).subset hc)⟩
  have hformat : ∀ c ∈ ((fileName goos path).dropWhile (fun c => c != dot)).drop 1,
      c ≠ dot ∧ IsPathSeparator goos c = false :=
    fun c hc => ⟨hafter c hc,
      hsep c ((List.dropWhile_sublist _).subset (List.mem_of_mem_drop hc))⟩
  have hseg := parsePath_segments goos p _ _ hlang hformat hp
  rw [List.append_assoc, ← hname, ← hpath] at hseg
  exact hseg

/-- C2, amended, at `path/to/active.json`: the locale is `active`. -/
theorem parsePath_oneDot_witness :
    (fileName GOOS.unix (ascii "path/to/active.json")).count dot = 1 ∧
      parsePath GOOS.unix (ascii "path/to/active.json") = (ascii "active", ascii "json") :=
  ⟨by decide, (parsePath_oneDot GOOS.unix (ascii "path/to/active.json") (by decide)).trans
    (by decide)⟩

/-! ## `ParseMessageFileBytes` -/

/-- C3: when the locale of the path parses and the decoder registered for the format of
the path, run on the (non-empty) buffer, yields a string-keyed map on whose every value
`NewMessage` succeeds, `ParseMessageFileBytes` succeeds with one message per entry: as
many messages as entries, and each message is what `NewMessage` built for its entry with
`ID` replaced by the key of the entry. -/
theorem parseMessageFileBytes_stringMap {L E F : Type} (x : Externals L E F)
    (buf path : GoString) (funcs : UnmarshalFuncs E) (f : UnmarshalFunc E) (tag : L)
    (entries : List (GoString × Raw))
    (hlang : x.languageParse (parsePath x.goos path).1 = Except.ok tag)
    (hbuf : buf ≠ [])
    (hfunc : mapIndex funcs (parsePath x.goos path).2 = some f)
    (hraw : f buf = (Raw.strMap entries, none))
    (hnew : ∀ e ∈ entries, ∃ m, x.NewMessage e.2 = Except.ok m) :
    ∃ mf, (ParseMessageFileBytes x buf path (some funcs)).1 = Except.ok mf ∧
      mf.Messages.length = entries.length ∧
      mf.Messages.map (fun m => m.ID) = entries.map (fun e => e.1) ∧
      List.Forall₂ (fun e m => ∃ m0, x.NewMessage e.2 = Except.ok m0 ∧
        m = { m0 with ID := e.1 }) entries mf.Messages := by
  obtain ⟨ms, hms, hall⟩ := rangeStringMap_ok x.NewMessage entries []
    [Call.languageParse (parsePath x.goos path).1,
      Call.unmarshal (parsePath x.goos path).2 buf] hnew
  refine ⟨{ Path := path, Tag := tag, Format := (parsePath x.goos path).2, Messages := ms },
    ?_, hall.length_eq.symm, ?_, hall⟩
  · simp only [ParseMessageFileBytes, hlang, length_beq_zero_of_ne_nil buf hbuf, hfunc, hraw]
    simp [finish, hms]
  · exact forall₂_map_ID x.NewMessage entries ms hall

/-- C3 at the map with the one entry `hello`: exactly one message, with `ID` equal to
`hello` although the constructor named it `constructed`. -/
theorem parseMessageFileBytes_stringMap_witness :
    stubNewMessage (Raw.strMap []) = Except.ok
        { ID := ascii "constructed", fields := ascii "from map" } ∧
      ∃ mf, (ParseMessageFileBytes stubExternals (ascii "x") (ascii "en.json")
          (some stubUnmarshalFuncs)).1 = Except.ok mf ∧
        mf.Messages.length = 1 ∧ mf.Messages.map (fun m => m.ID) = [ascii "hello"] := by
  refine ⟨rfl, ?_⟩
  obtain ⟨mf, h1, h2, h3, _⟩ := parseMessageFileBytes_stringMap stubExternals (ascii "x")
    (ascii "en.json") stubUnmarshalFuncs stubUnmarshalMap (ascii "en")
    [(ascii "hello", Raw.strMap [])] (by rfl) (by decide) (by rfl) (by rfl)
    (by intro e he; simp at he; subst he; exact ⟨_, rfl⟩)
  exact ⟨mf, h1, h2, h3⟩

/-- C4: when the locale of the path parses and the decoder, run on the (non-empty) buffer,
yields a list on whose every element `NewMessage` succeeds, `ParseMessageFileBytes`
succeeds with a message list of the same length whose i-th message is exactly what
`NewMessage` returned for the i-th element, `ID` included. -/
theorem parseMessageFileBytes_slice {L E F : Type} (x : Externals L E F)
    (buf path : GoString) (funcs : UnmarshalFuncs E) (f : UnmarshalFunc E) (tag : L)
    (elems : List Raw)
    (hlang : x.languageParse (parsePath x.goos path).1 = Except.ok tag)
    (hbuf : buf ≠ [])
    (hfunc : mapIndex funcs (parsePath x.goos path).2 = some f)
    (hraw : f buf = (Raw.slice elems, none))
    (hnew : ∀ d ∈ elems, ∃ m, x.NewMessage d = Except.ok m) :
    ∃ mf, (ParseMessageFileBytes x buf path (some funcs)).1 = Except.ok mf ∧
      mf.Messages.length = elems.length ∧
      List.Forall₂ (fun d m => x.NewMessage d = Except.ok m) elems mf.Messages ∧
      elems.map x.NewMessage = mf.Messages.map Except.ok := by
  obtain ⟨ms, hms, hall⟩ := rangeSlice_ok x.NewMessage elems []
    [Call.languageParse (parsePath x.goos path).1,
      Call.unmarshal (parsePath x.goos path).2 buf] hnew
  refine ⟨{ Path := path, Tag := tag, Format := (parsePath x.goos path).2, Messages := ms },
    ?_, hall.length_eq.symm, hall, ?_⟩
  · simp only [ParseMessageFileBytes, hlang, length_beq_zero_of_ne_nil buf hbuf, hfunc, hraw]
    simp [finish, hms]
  · exact forall₂_map_ok x.NewMessage elems ms hall

/-- C4 at a list of two elements: two messages, in the order of the list, with the `ID`
each element carries. -/
theorem parseMessageFileBytes_slice_witness :
    ∃ mf, (ParseMessageFileBytes stubExternals (ascii "x") (ascii "en.yaml")
        (some stubUnmarshalFuncs)).1 = Except.ok mf ∧
      mf.Messages.length = 2 ∧ mf.Messages.map (fun m => m.ID) = [ascii "a", ascii "b"] := by
  obtain ⟨mf, h1, h2, _, h4⟩ := parseMessageFileBytes_slice stubExternals (ascii "x")
    (ascii "en.yaml") stubUnmarshalFuncs stubUnmarshalList (ascii "en")
    [Raw.str (ascii "a"), Raw.str (ascii "b")] (by rfl) (by decide) (by rfl) (by rfl)
    (by intro d hd; simp at hd; rcases hd with rfl | rfl <;> exact ⟨_, rfl⟩)
  refine ⟨mf, h1, h2, ?_⟩
  match mf, h2, h4 with
  | ⟨_, _, _, [m1, m2]⟩, _, h4 =>
    simp [stubExternals, stubNewMessage] at h4
    obtain ⟨h5, h6⟩ := h4
    subst h5 h6
    rfl

/-- C5: when the locale of the path parses, `ParseMessageFileBytes` on the empty buffer
returns, for every registry (nil or not), no error and the message file with the given
path, the parsed tag, the format of the path and no messages; the only collaborator called
is the locale parser. -/
theorem parseMessageFileBytes_empty {L E F : Type} (x : Externals L E F) (path : GoString)
    (unmarshalFuncs : Option (UnmarshalFuncs E)) (tag : L)
    (hlang : x.languageParse (parsePath x.goos path).1 = Except.ok tag) :
    ParseMessageFileBytes x [] path unmarshalFuncs
      = (Except.ok
            { Path := path, Tag := tag, Format := (parsePath x.goos path).2, Messages := [] },
          [Call.languageParse (parsePath x.goos path).1]) := by
  simp [ParseMessageFileBytes, hlang]

/-- C5 at `en.json` with a nil registry. -/
theorem parseMessageFileBytes_empty_witness :
    ParseMessageFileBytes stubExternals [] (ascii "en.json") none
      = (Except.ok
            { Path := ascii "en.json", Tag := ascii "en", Format := ascii "json", Messages := [] },
          [Call.languageParse (ascii "en")]) :=
  parseMessageFileBytes_empty stubExternals (ascii "en.json") none (ascii "en") (by rfl)

/-- C6: for a non-empty buffer and a path whose locale parses, if the registry is nil, has
no entry for the format of the path, or has a nil function there, `ParseMessageFileBytes`
returns the error `no unmarshaler registered for <format>` and no message file, and the
only collaborator called is the locale parser. -/
theorem parseMessageFileBytes_unregistered {L E F : Type} (x : Externals L E F)
    (buf path : GoString) (unmarshalFuncs : Option (UnmarshalFuncs E)) (tag : L)
    (hlang : x.languageParse (parsePath x.goos path).1 = Except.ok tag)
    (hbuf : buf ≠ [])
    (hreg : unmarshalFuncs = none ∨ ∃ m, unmarshalFuncs = some m ∧
      (m.lookup (parsePath x.goos path).2 = none ∨
        m.lookup (parsePath x.goos path).2 = some none)) :
    ParseMessageFileBytes x buf path unmarshalFuncs
      = (Except.error (ParseError.noUnmarshaler (parsePath x.goos path).2),
          [Call.languageParse (parsePath x.goos path).1]) := by
  rcases hreg with rfl | ⟨m, rfl, h | h⟩
  · simp [ParseMessageFileBytes, hlang, length_beq_zero_of_ne_nil buf hbuf]
  · simp [ParseMessageFileBytes, hlang, length_beq_zero_of_ne_nil buf hbuf, mapIndex, h]
  · simp [ParseMessageFileBytes, hlang, length_beq_zero_of_ne_nil buf hbuf, mapIndex, h]

/-- C6 at `en.toml`, for which the registry holds a nil function. -/
theorem parseMessageFileBytes_unregistered_witness :
    ParseMessageFileBytes stubExternals (ascii "x") (ascii "en.toml")
        (some stubUnmarshalFuncs)
      = (Except.error (ParseError.noUnmarshaler (ascii "toml")),
          [Call.languageParse (ascii "en")]) :=
  parseMessageFileBytes_unregistered stubExternals (ascii "x") (ascii "en.toml")
    (some stubUnmarshalFuncs) (ascii "en") (by rfl) (by decide)
    (Or.inr ⟨stubUnmarshalFuncs, rfl, Or.inr (by rfl)⟩)

/-- C7: when the locale parser rejects the locale string of the path,
`ParseMessageFileBytes` returns exactly that error and no message file, for every buffer
and every registry, and the only collaborator called is the locale parser. -/
theorem parseMessageFileBytes_malformedLocale {L E F : Type} (x : Externals L E F)
    (buf path : GoString) (unmarshalFuncs : Option (UnmarshalFuncs E)) (err : E)
    (hlang : x.languageParse (parsePath x.goos path).1 = Except.error err) :
    ParseMessageFileBytes x buf path unmarshalFuncs
      = (Except.error (ParseError.ext err), [Call.languageParse (parsePath x.goos path).1]) := by
  simp [ParseMessageFileBytes, hlang]

/-- C7 at `active.json`, whose locale string `active` the stand-in parser rejects. -/
theorem parseMessageFileBytes_malformedLocale_witness :
    ParseMessageFileBytes stubExternals (ascii "x") (ascii "active.json")
        (some stubUnmarshalFuncs)
      = (Except.error (ParseError.ext (ascii "language: tag is not well-formed")),
          [Call.languageParse (ascii "active")]) :=
  parseMessageFileBytes_malformedLocale stubExternals (ascii "x") (ascii "active.json")
    (some stubUnmarshalFuncs) (ascii "language: tag is not well-formed") (by rfl)

/-! ## `Template.parse` -/

/-- A template with a memoized result is returned as it is, with that result, and the
engine is not called. -/
theorem parse_memoized {C E : Type} (engine : Engine C E) (t : Template C E)
    (leftDelim rightDelim : GoString) (e : Option E) (h : t.ParseErr = some e) :
    Template.parse engine t leftDelim rightDelim
      = some { t := t, err := e, engineCalls := [] } := by
  simp [Template.parse, parseBody, h]

/-- A fresh template whose source contains the left delimiter is compiled by one call of
the engine, whose two results are stored and whose error is returned. -/
theorem parse_fresh_compile {C E : Type} (engine : Engine C E) (t : Template C E)
    (leftDelim rightDelim : GoString) (h : t.ParseErr = none)
    (hsrc : Contains t.Src leftDelim = true) :
    Template.parse engine t leftDelim rightDelim
      = some { t := { t with Template := (engine t.Src leftDelim rightDelim).1,
                             ParseErr := some (engine t.Src leftDelim rightDelim).2 },
               err := (engine t.Src leftDelim rightDelim).2,
               engineCalls := [{ src := t.Src, leftDelim := leftDelim,
                                 rightDelim := rightDelim }] } := by
  simp [Template.parse, parseBody, h, hsrc]

/-- A fresh template whose source lacks the left delimiter only gets the memo
`some none`. -/
theorem parse_fresh_plain {C E : Type} (engine : Engine C E) (t : Template C E)
    (leftDelim rightDelim : GoString) (h : t.ParseErr = none)
    (hsrc : Contains t.Src leftDelim = false) :
    Template.parse engine t leftDelim rightDelim
      = some { t := { t with ParseErr := some none }, err := none, engineCalls := [] } := by
  simp [Template.parse, parseBody, h, hsrc]

/-- C8 fails as stated: the template below contains the left delimiter and already holds
a memoized result, and two calls of `parse` with the same delimiters call the engine not
once but not at all. -/
theorem parse_twice_counterexample :
    Contains (helloName) (leftBraces) = true ∧
      ∃ r1 r2 : ParseReturn GoString GoString,
        Template.parse stubEngine
            { Src := helloName, Template := none, ParseErr := some none }
            leftBraces rightBraces = some r1 ∧
        Template.parse stubEngine r1.t leftBraces rightBraces = some r2 ∧
        (r1.engineCalls ++ r2.engineCalls).length = 0 :=
  ⟨by decide, _, _, rfl, rfl, rfl⟩

/-- C8, amended: for a template whose source contains the left delimiter, two calls of
`parse` with the same delimiters both return, the second returns the error of the first,
makes no engine call and leaves `Src`, the compiled form and the memo as the first call
left them; the first call invokes the engine exactly once, on the source and the two
delimiters, when the template is fresh, and not at all when it holds a memoized result. -/
theorem parse_twice {C E : Type} (engine : Engine C E) (t : Template C E)
    (leftDelim rightDelim : GoString) (hsrc : Contains t.Src leftDelim = true) :
    ∃ r1 r2 : ParseReturn C E,
      Template.parse engine t leftDelim rightDelim = some r1 ∧
      Template.parse engine r1.t leftDelim rightDelim = some r2 ∧
      r2.err = r1.err ∧ r2.t = r1.t ∧ r2.engineCalls = [] ∧
      r1.t.Src = t.Src ∧
      (t.ParseErr = none →
        r1.engineCalls = [{ src := t.Src, leftDelim := leftDelim, rightDelim := rightDelim }] ∧
        (r1.engineCalls ++ r2.engineCalls).length = 1) ∧
      (t.ParseErr ≠ none → r1.engineCalls = []) := by
  cases h : t.ParseErr with
  | none =>
    refine ⟨_, _, parse_fresh_compile engine t leftDelim rightDelim h hsrc,
      parse_memoized engine _ leftDelim rightDelim _ rfl, rfl, rfl, rfl, rfl, ?_, ?_⟩
    · intro _; exact ⟨rfl, rfl⟩
    · intro hne; exact absurd rfl hne
  | some e =>
    refine ⟨_, _, parse_memoized engine t leftDelim rightDelim e h,
      parse_memoized engine t leftDelim rightDelim e h, rfl, rfl, rfl, rfl, ?_, ?_⟩
    · intro hnone; exact absurd hnone (by simp)
    · intro _; rfl

/-- C8, amended, at a fresh template: one engine call in two calls of `parse`. -/
theorem parse_twice_witness :
    ∃ r1 r2 : ParseReturn GoString GoString,
      Template.parse stubEngine
          { Src := helloName, Template := none, ParseErr := none }
          leftBraces rightBraces = some r1 ∧
      Template.parse stubEngine r1.t leftBraces rightBraces = some r2 ∧
      r2.err = r1.err ∧ r2.t = r1.t ∧
      (r1.engineCalls ++ r2.engineCalls).length = 1 := by
  obtain ⟨r1, r2, h1, h2, h3, h4, _, _, h7, _⟩ := parse_twice stubEngine
    { Src := helloName, Template := none, ParseErr := none }
    leftBraces rightBraces (by decide)
  exact ⟨r1, r2, h1, h2, h3, h4, (h7 rfl).2⟩

/-- C9: for a fresh template whose source does not contain the left delimiter, and any
right delimiter, `parse` returns no error, makes no engine call, leaves the compiled form
as it was (absent if it was absent) and sets the memo to a pointer to a nil error. -/
theorem parse_notATemplate {C E : Type} (engine : Engine C E) (t : Template C E)
    (leftDelim rightDelim : GoString) (hfresh : t.ParseErr = none)
    (hsrc : Contains t.Src leftDelim = false) :
    ∃ r : ParseReturn C E,
      Template.parse engine t leftDelim rightDelim = some r ∧
      r.err = none ∧ r.engineCalls = [] ∧
      r.t.Template = t.Template ∧ (t.Template = none → r.t.Template = none) ∧
      r.t.ParseErr = some none ∧ r.t.Src = t.Src :=
  ⟨_, parse_fresh_plain engine t leftDelim rightDelim hfresh hsrc, rfl, rfl, rfl,
    fun h => h, rfl, rfl⟩

/-- C9 at the source `Hello world` with the delimiters `{{` and `}}`. -/
theorem parse_notATemplate_witness :
    Template.parse stubEngine
        { Src := ascii "Hello world", Template := none, ParseErr := none }
        leftBraces rightBraces
      = some { t := { Src := ascii "Hello world", Template := none, ParseErr := some none },
               err := none, engineCalls := [] } := by
  obtain ⟨⟨⟨src, tmpl, memo⟩, err, calls⟩, h1, h2, h3, h4, _, h6, h7⟩ :=
    parse_notATemplate stubEngine
      { Src := ascii "Hello world", Template := none, ParseErr := none }
      leftBraces rightBraces rfl (by decide)
  simp only [] at h2 h3 h4 h6 h7
  subst h2 h3 h4 h6 h7
  exact h1

/-- C10: once a template has a memoized result, a call of `parse` with any delimiters
returns that result, calls no engine and leaves the template (memo and compiled form
included) as it was; hence so does every call of any sequence of later calls. -/
theorem parse_memo_permanent {C E : Type} (engine : Engine C E) (t : Template C E)
    (e : Option E) (hmemo : t.ParseErr = some e) :
    (∀ leftDelim rightDelim : GoString,
      Template.parse engine t leftDelim rightDelim
        = some { t := t, err := e, engineCalls := [] }) ∧
      ∀ ds : List (GoString × GoString),
        parseEach engine t ds = some (t, ds.map (fun _ => e), []) := by
  refine ⟨fun l r => parse_memoized engine t l r e hmemo, ?_⟩
  intro ds
  induction ds with
  | nil => rfl
  | cons d ds ih =>
    simp [parseEach, parse_memoized engine t d.1 d.2 e hmemo, ih]

/-- C10 at a template that failed to compile with `{{` and `}}` and is then parsed with
`<<` and `>>`: the first error comes back and nothing changes. -/
theorem parse_memo_permanent_witness :
    Template.parse stubEngine
        { Src := helloUnclosed, Template := none, ParseErr := none }
        leftBraces rightBraces
      = some { t := { Src := helloUnclosed, Template := none,
                      ParseErr := some (some (ascii "unclosed action")) },
               err := some (ascii "unclosed action"),
               engineCalls := [{ src := helloUnclosed, leftDelim := leftBraces,
                                 rightDelim := rightBraces }] } ∧
      Template.parse stubEngine
          { Src := helloUnclosed, Template := none,
            ParseErr := some (some (ascii "unclosed action")) }
          (ascii "<<") (ascii ">>")
        = some { t := { Src := helloUnclosed, Template := none,
                        ParseErr := some (some (ascii "unclosed action")) },
                 err := some (ascii "unclosed action"), engineCalls := [] } :=
  ⟨by rfl, (parse_memo_permanent stubEngine
    { Src := helloUnclosed, Template := none,
      ParseErr := some (some (ascii "unclosed action")) }
    (some (ascii "unclosed action")) rfl).1 (ascii "<<") (ascii ">>")⟩

/-! ## More facts about `parsePath` -/

/-- Without a dot in the path, the scan never sets `formatStartIdx`. -/
theorem parsePathLoop_noDot (goos : GOOS) (path : GoString) (h : ∀ c ∈ path, c ≠ dot) :
    ∀ n : Nat, parsePathLoop goos path n (-1) [] = ([], []) := by
  intro n
  induction n with
  | zero => simp [parsePathLoop]
  | succ i ih =>
    have hc : path.getD i 0 ≠ dot := by
      rw [List.getD_eq_getElem?_getD]
      cases hi : path[i]? with
      | none => simp [dot]
      | some c =>
        have hmem : c ∈ path := by
          rw [List.getElem?_eq_some_iff] at hi
          obtain ⟨hlt, rfl⟩ := hi
          exact List.getElem_mem hlt
        simpa using h c hmem
    rw [parsePathLoop]
    generalize path.getD i 0 = c at hc
    simp [hc, ih]

theorem getD_append_right (p name : GoString) (n : Nat) :
    (p ++ name).getD (p.length + n) 0 = name.getD n 0 := by
  induction p with
  | nil => simp
  | cons a t ih =>
    have e : (a :: t).length + n = (t.length + n) + 1 := by simp; omega
    rw [e]
    simpa using ih

theorem getD_mem (name : GoString) (n : Nat) (h : n < name.length) :
    name.getD n 0 ∈ name := by
  rw [List.getD_eq_getElem?_getD, List.getElem?_eq_getElem h]
  exact List.getElem_mem h

theorem slice_append_left (p name : GoString) (a b : Nat) :
    slice (p ++ name) (p.length + a) (p.length + b) = slice name a b := by
  rw [slice, slice, List.take_append, List.drop_append]

/-- The scan of a file name gives the same results with a directory part in front: the
index variables are larger by the length of that part, the slices are the same. -/
theorem parsePathLoop_shift (goos : GOOS) (p name : GoString)
    (hname : ∀ c ∈ name, IsPathSeparator goos c = false)
    (hp : p = [] ∨ ∃ q c, p = q ++ [c] ∧ IsPathSeparator goos c = true) :
    ∀ n : Nat, n ≤ name.length → ∀ (fsiP fsiN : Int) (fmt : GoString),
      ((fsiP = -1 ∧ fsiN = -1) ∨
        ∃ k : Nat, fsiP = ((p.length + k : Nat) : Int) ∧ fsiN = (k : Int)) →
      parsePathLoop goos (p ++ name) (p.length + n) fsiP fmt
        = parsePathLoop goos name n fsiN fmt := by
  intro n
  induction n with
  | zero =>
    intro _ fsiP fsiN fmt hrel
    rcases hp with rfl | ⟨q, c, rfl, hsep⟩
    · rcases hrel with ⟨rfl, rfl⟩ | ⟨k, rfl, rfl⟩
      · rfl
      · simp
    · have e1 : q ++ [c] ++ name = q ++ c :: name := by simp
      have e2 : (q ++ [c]).length + 0 = q.length + 1 := by simp
      have hget := getD_append_mid q name c
      rw [e2, e1, parsePathLoop, parsePathLoop]
      simp only [hget, hsep, if_true]
      rcases hrel with ⟨rfl, rfl⟩ | ⟨k, rfl, rfl⟩
      · simp
      · have hs := slice_append_left (q ++ [c]) name 0 k
        rw [e1] at hs
        simp only [natCast_ne_negOne, Int.toNat_ofNat, if_true]
        have e3 : (q ++ [c]).length + 0 = q.length + 1 := by simp
        rw [e3] at hs
        rw [hs]
  | succ i ih =>
    intro hle fsiP fsiN fmt hrel
    have hlt : i < name.length := by omega
    have hget := getD_append_right p name i
    have hsep := hname _ (getD_mem name i hlt)
    have e1 : p.length + (i + 1) = (p.length + i) + 1 := by omega
    have hdrop : (p ++ name).drop (p.length + i + 1) = name.drop (i + 1) := by
      rw [Nat.add_assoc, List.drop_append]
    rw [e1, parsePathLoop, parsePathLoop.eq_2]
    simp only [hget, hsep, hdrop]
    generalize name.getD i 0 = c
    by_cases hdot : c = dot
    · rcases hrel with ⟨rfl, rfl⟩ | ⟨k, rfl, rfl⟩
      · have h2 := ih (by omega) ((p.length + i : Nat) : Int) (i : Int) (name.drop (i + 1))
          (Or.inr ⟨i, rfl, rfl⟩)
        simpa [hdot] using h2
      · have hs := slice_append_left p name (i + 1) k
        rw [← Nat.add_assoc] at hs
        simp only [natCast_ne_negOne, Int.toNat_ofNat, hs]
        simp [hdot]
    · have h2 := ih (by omega) fsiP fsiN fmt hrel
      simpa [hdot] using h2

/-- After a directory part that is empty or ends in a separator, `parsePath` sees only the
file name. -/
theorem parsePath_append_fileName (goos : GOOS) (p name : GoString)
    (hname : ∀ c ∈ name, IsPathSeparator goos c = false)
    (hp : p = [] ∨ ∃ q c, p = q ++ [c] ∧ IsPathSeparator goos c = true) :
    parsePath goos (p ++ name) = parsePath goos name := by
  have h := parsePathLoop_shift goos p name hname hp name.length (Nat.le_refl _) (-1) (-1) []
    (Or.inl ⟨rfl, rfl⟩)
  rw [parsePath, parsePath, List.length_append]
  exact h

/-- A path is its file name after a part that is empty or ends in a separator. -/
theorem fileName_split_sep (goos : GOOS) (path : GoString) :
    ∃ p, path = p ++ fileName goos path ∧
      (p = [] ∨ ∃ q c, p = q ++ [c] ∧ IsPathSeparator goos c = true) := by
  refine ⟨(path.reverse.dropWhile (fun c => !IsPathSeparator goos c)).reverse, ?_, ?_⟩
  · rw [fileName, ← List.reverse_append, List.takeWhile_append_dropWhile, List.reverse_reverse]
  · cases h : path.reverse.dropWhile (fun c => !IsPathSeparator goos c) with
    | nil => left; rfl
    | cons c t =>
      right
      refine ⟨t.reverse, c, by simp, ?_⟩
      have hc := dropWhile_head_false (fun c => !IsPathSeparator goos c) c t _ h
      simpa using hc

/-- A string that contains a dot splits at its last dot. -/
theorem lastDot_split (l : GoString) (h : dot ∈ l) :
    ∃ a b, l = a ++ dot :: b ∧ ∀ c ∈ b, c ≠ dot := by
  induction l with
  | nil => simp at h
  | cons x t ih =>
    by_cases ht : dot ∈ t
    · obtain ⟨a, b, hab, hb⟩ := ih ht
      exact ⟨x :: a, b, by rw [hab]; rfl, hb⟩
    · have hx : x = dot := by
        rcases List.mem_cons.mp h with h1 | h1
        · exact h1.symm
        · exact absurd h1 ht
      subst hx
      exact ⟨[], t, rfl, fun c hc hcd => ht (hcd ▸ hc)⟩

/-- The two outcomes of `parsePath` on a directory part followed by a file name: both
results empty when the file name has no dot, and otherwise the last two dot-separated
segments of the file name. -/
theorem parsePath_shape (goos : GOOS) (p0 name : GoString)
    (hname : ∀ c ∈ name, IsPathSeparator goos c = false)
    (hp0 : p0 = [] ∨ ∃ q c, p0 = q ++ [c] ∧ IsPathSeparator goos c = true) :
    (dot ∉ name ∧ parsePath goos (p0 ++ name) = ([], [])) ∨
      (dot ∈ name ∧ ∃ lang format,
        (∀ c ∈ lang, c ≠ dot ∧ IsPathSeparator goos c = false) ∧
        (∀ c ∈ format, c ≠ dot ∧ IsPathSeparator goos c = false) ∧
        (lang ++ dot :: format) <:+ name ∧
        parsePath goos (p0 ++ name) = (lang, format)) := by
  by_cases hd : dot ∈ name
  · right
    refine ⟨hd, ?_⟩
    obtain ⟨a, b, hab, hb⟩ := lastDot_split name hd
    have hbsep : ∀ c ∈ b, c ≠ dot ∧ IsPathSeparator goos c = false :=
      fun c hc => ⟨hb c hc, hname c (by rw [hab]; simp [hc])⟩
    by_cases hda : dot ∈ a
    · obtain ⟨a1, lang, ha, hl⟩ := lastDot_split a hda
      have hlsep : ∀ c ∈ lang, c ≠ dot ∧ IsPathSeparator goos c = false :=
        fun c hc => ⟨hl c hc, hname c (by rw [hab, ha]; simp [hc])⟩
      refine ⟨lang, b, hlsep, hbsep, ⟨a1 ++ [dot], by rw [hab, ha]; simp⟩, ?_⟩
      have hseg := parsePath_segments goos (p0 ++ a1 ++ [dot]) lang b hlsep hbsep
        (Or.inr ⟨p0 ++ a1, dot, rfl, Or.inl rfl⟩)
      have e : p0 ++ a1 ++ [dot] ++ lang ++ dot :: b = p0 ++ name := by
        rw [hab, ha]; simp
      rw [e] at hseg
      exact hseg
    · have hasep : ∀ c ∈ a, c ≠ dot ∧ IsPathSeparator goos c = false :=
        fun c hc => ⟨fun hcd => hda (hcd ▸ hc), hname c (by rw [hab]; simp [hc])⟩
      refine ⟨a, b, hasep, hbsep, ⟨[], by rw [hab]; rfl⟩, ?_⟩
      have hp : p0 = [] ∨ ∃ q c, p0 = q ++ [c] ∧ (c = dot ∨ IsPathSeparator goos c = true) := by
        rcases hp0 with h | ⟨q, c, h, hc⟩
        · exact Or.inl h
        · exact Or.inr ⟨q, c, h, Or.inr hc⟩
      have hseg := parsePath_segments goos p0 a b hasep hbsep hp
      have e : p0 ++ a ++ dot :: b = p0 ++ name := by
        rw [hab]; simp
      rw [e] at hseg
      exact hseg
  · left
    refine ⟨hd, ?_⟩
    rw [parsePath_append_fileName goos p0 name hname hp0, parsePath]
    exact parsePathLoop_noDot goos name (fun c hc hcd => hd (hcd ▸ hc)) _

/-! ## More facts about the `range` statements -/

/-- With string keys only, the untyped-key loop is the string-keyed loop. -/
theorem rangeInterfaceMap_strKeys {E F : Type} (NewMessage : Raw → Except E (Message F)) :
    ∀ (entries : List (GoString × Raw)) (acc : List (Message F)) (calls : List Call),
      rangeInterfaceMap NewMessage (entries.map (fun e => (Raw.str e.1, e.2))) acc calls
        = rangeStringMap NewMessage entries acc calls := by
  intro entries
  induction entries with
  | nil => intro acc calls; rfl
  | cons e rest ih =>
    intro acc calls
    obtain ⟨id, data⟩ := e
    simp only [List.map_cons, rangeInterfaceMap, rangeStringMap]
    cases NewMessage data with
    | error err => rfl
    | ok m => exact ih _ _

/-- The untyped-key loop on a map with a key that is not a string ends in an error: the
key error for the first such key, unless `NewMessage` failed on an entry before it. -/
theorem rangeInterfaceMap_nonStringKey {E F : Type} (NewMessage : Raw → Except E (Message F))
    (kv : Raw × Raw) :
    ∀ (entries : List (Raw × Raw)) (acc : List (Message F)) (calls : List Call),
      entries.find? (fun e => !e.1.isString) = some kv →
      ∃ err calls1, rangeInterfaceMap NewMessage entries acc calls = (Except.error err, calls1) ∧
        (err = ParseError.keyNotString kv.1 ∨
          ∃ e ∈ entries.takeWhile (fun e => e.1.isString), ∃ e1,
            NewMessage e.2 = Except.error e1 ∧ err = ParseError.ext e1) ∧
        ((∀ e ∈ entries.takeWhile (fun e => e.1.isString), ∃ m, NewMessage e.2 = Except.ok m) →
          err = ParseError.keyNotString kv.1) := by
  intro entries
  induction entries with
  | nil => intro acc calls h; simp at h
  | cons e rest ih =>
    intro acc calls h
    obtain ⟨id, data⟩ := e
    by_cases hid : id.isString = true
    · have hfind : rest.find? (fun e => !e.1.isString) = some kv := by
        simpa [List.find?_cons, hid] using h
      have htake : (((id, data) :: rest).takeWhile (fun e => e.1.isString))
          = (id, data) :: rest.takeWhile (fun e => e.1.isString) := by
        simp [List.takeWhile_cons, hid]
      rw [htake]
      cases id with
      | str strid =>
        simp only [rangeInterfaceMap]
        cases hnm : NewMessage data with
        | error err =>
          refine ⟨ParseError.ext err, _, rfl, Or.inr ⟨(Raw.str strid, data), by simp, err, hnm, rfl⟩, ?_⟩
          intro hall
          obtain ⟨m, hm⟩ := hall (Raw.str strid, data) (by simp)
          rw [hnm] at hm
          cases hm
        | ok m =>
          obtain ⟨err, calls1, h1, h2, h3⟩ := ih (acc ++ [{ m with ID := strid }])
            (calls ++ [Call.NewMessage data]) hfind
          refine ⟨err, calls1, h1, ?_, ?_⟩
          · rcases h2 with h2 | ⟨e, he, e1, h4, h5⟩
            · exact Or.inl h2
            · exact Or.inr ⟨e, List.mem_cons_of_mem _ he, e1, h4, h5⟩
          · intro hall
            exact h3 (fun e he => hall e (List.mem_cons_of_mem _ he))
      | nil => simp [Raw.isString] at hid
      | bool b => simp [Raw.isString] at hid
      | int n => simp [Raw.isString] at hid
      | strMap es => simp [Raw.isString] at hid
      | ifaceMap es => simp [Raw.isString] at hid
      | slice es => simp [Raw.isString] at hid
    · have hkv : kv = (id, data) := by
        simpa [List.find?_cons, hid] using h.symm
      subst hkv
      refine ⟨ParseError.keyNotString id, calls, ?_, Or.inl rfl, fun _ => rfl⟩
      cases id with
      | str strid => simp [Raw.isString] at hid
      | nil => rfl
      | bool b => rfl
      | int n => rfl
      | strMap es => rfl
      | ifaceMap es => rfl
      | slice es => rfl

/-- The list loop stops at the first element on which `NewMessage` fails, with that error,
and has then called `NewMessage` on the elements up to that one and on no other. -/
theorem rangeSlice_firstFailure {E F : Type} (NewMessage : Raw → Except E (Message F))
    (d : Raw) (post : List Raw) (e : E) (hd : NewMessage d = Except.error e) :
    ∀ (pre : List Raw) (acc : List (Message F)) (calls : List Call),
      (∀ a ∈ pre, ∃ m, NewMessage a = Except.ok m) →
      rangeSlice NewMessage (pre ++ d :: post) acc calls
        = (Except.error (ParseError.ext e),
            calls ++ (pre ++ [d]).map (fun a => Call.NewMessage a)) := by
  intro pre
  induction pre with
  | nil =>
    intro acc calls _
    simp [rangeSlice, hd]
  | cons a rest ih =>
    intro acc calls h
    obtain ⟨m, hm⟩ := h a (by simp)
    have h2 := ih (acc ++ [m]) (calls ++ [Call.NewMessage a])
      (fun b hb => h b (by simp [hb]))
    rw [List.cons_append, rangeSlice, hm]
    simp only []
    rw [h2]
    simp

theorem getLast?_cons_of_some {α : Type} (x y : α) (l : List α) (h : l.getLast? = some y) :
    (x :: l).getLast? = some y := by
  cases l with
  | nil => simp at h
  | cons a t => rw [List.getLast?_cons_cons]; exact h

/-- One step of the argument that a loop stops at the first failing call of `NewMessage`:
the call on `a` comes first, the calls `extra` of the rest of the loop follow. -/
theorem abort_step {E F : Type} (NewMessage : Raw → Except E (Message F)) (a : Raw)
    (m : Message F) (hm : NewMessage a = Except.ok m) (extra : List Call)
    (r : Except (ParseError E) (List (Message F)))
    (h : ∀ d e, Call.NewMessage d ∈ extra → NewMessage d = Except.error e →
      r = Except.error (ParseError.ext e) ∧ extra.getLast? = some (Call.NewMessage d)) :
    ∀ d e, Call.NewMessage d ∈ Call.NewMessage a :: extra → NewMessage d = Except.error e →
      r = Except.error (ParseError.ext e) ∧
        (Call.NewMessage a :: extra).getLast? = some (Call.NewMessage d) := by
  intro d e hmem hfail
  rcases List.mem_cons.mp hmem with heq | hin
  · have hda : d = a := Call.NewMessage.inj heq
    subst hda
    rw [hm] at hfail
    cases hfail
  · obtain ⟨h1, h2⟩ := h d e hin hfail
    exact ⟨h1, getLast?_cons_of_some _ _ _ h2⟩

/-- The loop ends at the failing call of `NewMessage` on `a`. -/
theorem abort_last {E F : Type} (NewMessage : Raw → Except E (Message F)) (a : Raw)
    (err : E) (hm : NewMessage a = Except.error err) :
    ∀ d e, Call.NewMessage d ∈ [Call.NewMessage a] → NewMessage d = Except.error e →
      (Except.error (ParseError.ext err) : Except (ParseError E) (List (Message F)))
          = Except.error (ParseError.ext e) ∧
        [Call.NewMessage a].getLast? = some (Call.NewMessage d) := by
  intro d e hmem hfail
  have heq : Call.NewMessage d = Call.NewMessage a := by simpa using hmem
  have hda : d = a := Call.NewMessage.inj heq
  subst hda
  rw [hm] at hfail
  cases hfail
  exact ⟨rfl, rfl⟩

/-- In the list loop, a call of `NewMessage` that fails is the last call, and its error is
the result. -/
theorem rangeSlice_abort {E F : Type} (NewMessage : Raw → Except E (Message F)) :
    ∀ (elems : List Raw) (acc : List (Message F)) (calls : List Call),
      ∃ extra, (rangeSlice NewMessage elems acc calls).2 = calls ++ extra ∧
        ∀ d e, Call.NewMessage d ∈ extra → NewMessage d = Except.error e →
          (rangeSlice NewMessage elems acc calls).1 = Except.error (ParseError.ext e) ∧
            extra.getLast? = some (Call.NewMessage d) := by
  intro elems
  induction elems with
  | nil => intro acc calls; exact ⟨[], by simp [rangeSlice], by simp⟩
  | cons a rest ih =>
    intro acc calls
    cases hm : NewMessage a with
    | error err =>
      refine ⟨[Call.NewMessage a], by simp [rangeSlice, hm], ?_⟩
      simp only [rangeSlice, hm]
      exact abort_last NewMessage a err hm
    | ok m =>
      obtain ⟨extra, h1, h2⟩ := ih (acc ++ [m]) (calls ++ [Call.NewMessage a])
      refine ⟨Call.NewMessage a :: extra, ?_, ?_⟩
      · simp only [rangeSlice, hm]
        rw [h1]; simp
      · simp only [rangeSlice, hm]
        exact abort_step NewMessage a m hm extra _ h2

/-- In the string-keyed loop, a call of `NewMessage` that fails is the last call, and its
error is the result. -/
theorem rangeStringMap_abort {E F : Type} (NewMessage : Raw → Except E (Message F)) :
    ∀ (entries : List (GoString × Raw)) (acc : List (Message F)) (calls : List Call),
      ∃ extra, (rangeStringMap NewMessage entries acc calls).2 = calls ++ extra ∧
        ∀ d e, Call.NewMessage d ∈ extra → NewMessage d = Except.error e →
          (rangeStringMap NewMessage entries acc calls).1 = Except.error (ParseError.ext e) ∧
            extra.getLast? = some (Call.NewMessage d) := by
  intro entries
  induction entries with
  | nil => intro acc calls; exact ⟨[], by simp [rangeStringMap], by simp⟩
  | cons kv rest ih =>
    intro acc calls
    obtain ⟨id, a⟩ := kv
    cases hm : NewMessage a with
    | error err =>
      refine ⟨[Call.NewMessage a], by simp [rangeStringMap, hm], ?_⟩
      simp only [rangeStringMap, hm]
      exact abort_last NewMessage a err hm
    | ok m =>
      obtain ⟨extra, h1, h2⟩ := ih (acc ++ [{ m with ID := id }])
        (calls ++ [Call.NewMessage a])
      refine ⟨Call.NewMessage a :: extra, ?_, ?_⟩
      · simp only [rangeStringMap, hm]
        rw [h1]; simp
      · simp only [rangeStringMap, hm]
        exact abort_step NewMessage a m hm extra _ h2

/-- In the untyped-key loop, a call of `NewMessage` that fails is the last call, and its
error is the result. -/
theorem rangeInterfaceMap_abort {E F : Type} (NewMessage : Raw → Except E (Message F)) :
    ∀ (entries : List (Raw × Raw)) (acc : List (Message F)) (calls : List Call),
      ∃ extra, (rangeInterfaceMap NewMessage entries acc calls).2 = calls ++ extra ∧
        ∀ d e, Call.NewMessage d ∈ extra → NewMessage d = Except.error e →
          (rangeInterfaceMap NewMessage entries acc calls).1
              = Except.error (ParseError.ext e) ∧
            extra.getLast? = some (Call.NewMessage d) := by
  intro entries
  induction entries with
  | nil => intro acc calls; exact ⟨[], by simp [rangeInterfaceMap], by simp⟩
  | cons kv rest ih =>
    intro acc calls
    obtain ⟨id, a⟩ := kv
    cases id with
    | str strid =>
      cases hm : NewMessage a with
      | error err =>
        refine ⟨[Call.NewMessage a], by simp [rangeInterfaceMap, hm], ?_⟩
        simp only [rangeInterfaceMap, hm]
        exact abort_last NewMessage a err hm
      | ok m =>
        obtain ⟨extra, h1, h2⟩ := ih (acc ++ [{ m with ID := strid }])
          (calls ++ [Call.NewMessage a])
        refine ⟨Call.NewMessage a :: extra, ?_, ?_⟩
        · simp only [rangeInterfaceMap, hm]
          rw [h1]; simp
        · simp only [rangeInterfaceMap, hm]
          exact abort_step NewMessage a m hm extra _ h2
    | nil => exact ⟨[], by simp [rangeInterfaceMap], by simp⟩
    | bool b => exact ⟨[], by simp [rangeInterfaceMap], by simp⟩
    | int n => exact ⟨[], by simp [rangeInterfaceMap], by simp⟩
    | strMap es => exact ⟨[], by simp [rangeInterfaceMap], by simp⟩
    | ifaceMap es => exact ⟨[], by simp [rangeInterfaceMap], by simp⟩
    | slice es => exact ⟨[], by simp [rangeInterfaceMap], by simp⟩

/-- The end of the function keeps the error and the calls of the loop, and on success keeps
`Path`, `Tag` and `Format`. -/
theorem finish_eq {L E F : Type} (mf0 : MessageFile L F)
    (r : Except (ParseError E) (List (Message F)) × List Call) :
    (finish mf0 r).2 = r.2 ∧
      (∀ err, r.1 = Except.error err → (finish mf0 r).1 = Except.error err) ∧
      (∀ mf, (finish mf0 r).1 = Except.ok mf →
        mf.Path = mf0.Path ∧ mf.Tag = mf0.Tag ∧ mf.Format = mf0.Format) := by
  obtain ⟨r1, r2⟩ := r
  cases r1 with
  | error err =>
    refine ⟨rfl, fun e h => ?_, fun mf h => ?_⟩
    · simpa [finish] using h
    · simp [finish] at h
  | ok ms =>
    refine ⟨rfl, fun e h => ?_, fun mf h => ?_⟩
    · simp at h
    · simp only [finish] at h
      injection h with h
      subst h
      exact ⟨rfl, rfl, rfl⟩

/-! ## Where the map loops stop -/

theorem isString_eq_true (id : Raw) (h : id.isString = true) : ∃ s, id = Raw.str s := by
  cases id with
  | str s => exact ⟨s, rfl⟩
  | nil => simp [Raw.isString] at h
  | bool b => simp [Raw.isString] at h
  | int n => simp [Raw.isString] at h
  | strMap es => simp [Raw.isString] at h
  | ifaceMap es => simp [Raw.isString] at h
  | slice es => simp [Raw.isString] at h

theorem takeWhile_isString_pos (id data : Raw) (rest : List (Raw × Raw))
    (h : id.isString = true) :
    ((id, data) :: rest).takeWhile (fun a => a.1.isString)
      = (id, data) :: rest.takeWhile (fun a => a.1.isString) := by
  simp [List.takeWhile_cons, h]

theorem takeWhile_isString_neg (id data : Raw) (rest : List (Raw × Raw))
    (h : ¬ id.isString = true) :
    ((id, data) :: rest).takeWhile (fun a => a.1.isString) = [] := by
  simp [List.takeWhile_cons, h]

/-- At a key that is not a string the untyped-key loop returns the key error without
calling `NewMessage`. -/
theorem rangeInterfaceMap_cons_nonString {E F : Type}
    (NewMessage : Raw → Except E (Message F)) (id data : Raw) (rest : List (Raw × Raw))
    (acc : List (Message F)) (calls : List Call) (h : ¬ id.isString = true) :
    rangeInterfaceMap NewMessage ((id, data) :: rest) acc calls
      = (Except.error (ParseError.keyNotString id), calls) := by
  cases id with
  | str s => simp [Raw.isString] at h
  | nil => rfl
  | bool b => rfl
  | int n => rfl
  | strMap es => rfl
  | ifaceMap es => rfl
  | slice es => rfl

/-- The string-keyed loop stops at the first entry on whose value `NewMessage` fails, with
that error, and has then called `NewMessage` on the entries up to that one and on no
other. -/
theorem rangeStringMap_firstFailure {E F : Type} (NewMessage : Raw → Except E (Message F))
    (kd : GoString × Raw) (post : List (GoString × Raw)) (e : E)
    (hd : NewMessage kd.2 = Except.error e) :
    ∀ (pre : List (GoString × Raw)) (acc : List (Message F)) (calls : List Call),
      (∀ a ∈ pre, ∃ m, NewMessage a.2 = Except.ok m) →
      rangeStringMap NewMessage (pre ++ kd :: post) acc calls
        = (Except.error (ParseError.ext e),
            calls ++ (pre ++ [kd]).map (fun a => Call.NewMessage a.2)) := by
  intro pre
  induction pre with
  | nil =>
    intro acc calls _
    obtain ⟨k, d⟩ := kd
    simp only [] at hd
    simp [rangeStringMap, hd]
  | cons a rest ih =>
    intro acc calls h
    obtain ⟨m, hm⟩ := h a (by simp)
    obtain ⟨k, d⟩ := a
    simp only [] at hm
    have h2 := ih (acc ++ [{ m with ID := k }]) (calls ++ [Call.NewMessage d])
      (fun b hb => h b (by simp [hb]))
    rw [List.cons_append, rangeStringMap, hm]
    simp only []
    rw [h2]
    simp

/-- The untyped-key loop stops at the first entry on whose value `NewMessage` fails, when
the keys up to and including that entry are strings: it returns that error and has then
called `NewMessage` on the entries up to that one and on no other. -/
theorem rangeInterfaceMap_firstFailure {E F : Type} (NewMessage : Raw → Except E (Message F))
    (kd : Raw × Raw) (post : List (Raw × Raw)) (e : E)
    (hd : NewMessage kd.2 = Except.error e) :
    ∀ (pre entries : List (Raw × Raw)) (acc : List (Message F)) (calls : List Call),
      entries.takeWhile (fun a => a.1.isString) = pre ++ kd :: post →
      (∀ a ∈ pre, ∃ m, NewMessage a.2 = Except.ok m) →
      rangeInterfaceMap NewMessage entries acc calls
        = (Except.error (ParseError.ext e),
            calls ++ (pre ++ [kd]).map (fun a => Call.NewMessage a.2)) := by
  intro pre
  induction pre with
  | nil =>
    intro entries acc calls htake _
    cases entries with
    | nil => simp at htake
    | cons a rest =>
      obtain ⟨id, data⟩ := a
      by_cases hid : id.isString = true
      · rw [takeWhile_isString_pos id data rest hid] at htake
        have hkd : (id, data) = kd := by
          have := List.cons.inj htake
          exact this.1
        subst hkd
        obtain ⟨s, rfl⟩ := isString_eq_true id hid
        simp only [] at hd
        simp [rangeInterfaceMap, hd]
      · rw [takeWhile_isString_neg id data rest hid] at htake
        simp at htake
  | cons b pre1 ih =>
    intro entries acc calls htake h
    cases entries with
    | nil => simp at htake
    | cons a rest =>
      obtain ⟨id, data⟩ := a
      by_cases hid : id.isString = true
      · rw [takeWhile_isString_pos id data rest hid, List.cons_append] at htake
        have hinj := List.cons.inj htake
        have hb : (id, data) = b := hinj.1
        subst hb
        obtain ⟨s, rfl⟩ := isString_eq_true id hid
        obtain ⟨m, hm⟩ := h (Raw.str s, data) (by simp)
        simp only [] at hm
        have h2 := ih rest (acc ++ [{ m with ID := s }]) (calls ++ [Call.NewMessage data])
          hinj.2 (fun c hc => h c (by simp [hc]))
        rw [rangeInterfaceMap, hm]
        simp only []
        rw [h2]
        simp
      · rw [takeWhile_isString_neg id data rest hid] at htake
        simp at htake

/-- The untyped-key loop returns the key error for the first key that is not a string when
`NewMessage` succeeds on every entry before it, and has then called `NewMessage` on those
entries only. -/
theorem rangeInterfaceMap_keyError {E F : Type} (NewMessage : Raw → Except E (Message F))
    (kv : Raw × Raw) :
    ∀ (entries : List (Raw × Raw)) (acc : List (Message F)) (calls : List Call),
      entries.find? (fun a => !a.1.isString) = some kv →
      (∀ a ∈ entries.takeWhile (fun a => a.1.isString), ∃ m, NewMessage a.2 = Except.ok m) →
      rangeInterfaceMap NewMessage entries acc calls
        = (Except.error (ParseError.keyNotString kv.1),
            calls ++ (entries.takeWhile (fun a => a.1.isString)).map
              (fun a => Call.NewMessage a.2)) := by
  intro entries
  induction entries with
  | nil => intro acc calls h; simp at h
  | cons a rest ih =>
    intro acc calls hfind hall
    obtain ⟨id, data⟩ := a
    by_cases hid : id.isString = true
    · have hfind2 : rest.find? (fun a => !a.1.isString) = some kv := by
        simpa [List.find?_cons, hid] using hfind
      rw [takeWhile_isString_pos id data rest hid] at hall ⊢
      obtain ⟨s, rfl⟩ := isString_eq_true id hid
      obtain ⟨m, hm⟩ := hall (Raw.str s, data) (by simp)
      simp only [] at hm
      have h2 := ih (acc ++ [{ m with ID := s }]) (calls ++ [Call.NewMessage data]) hfind2
        (fun c hc => hall c (by simp [hc]))
      rw [rangeInterfaceMap, hm]
      simp only []
      rw [h2]
      simp
    · have hkv : kv = (id, data) := by
        simpa [List.find?_cons, hid] using hfind.symm
      subst hkv
      rw [takeWhile_isString_neg id data rest hid,
        rangeInterfaceMap_cons_nonString _ _ _ _ _ _ hid]
      simp

/-! ## Path inference, continued -/

/-- C11: for every `dir` and every `name` without a path separator,
`parsePath (dir ++ separator ++ name)` is `parsePath name`: the directory part has no
influence on the locale or the format. -/
theorem parsePath_ignores_directory (goos : GOOS) (dir name : GoString) (sep : Nat)
    (hsep : IsPathSeparator goos sep = true)
    (hname : ∀ c ∈ name, IsPathSeparator goos c = false) :
    parsePath goos (dir ++ [sep] ++ name) = parsePath goos name :=
  parsePath_append_fileName goos (dir ++ [sep]) name hname (Or.inr ⟨dir, sep, rfl, hsep⟩)

/-- C11 at the directory `en.d` and the file name `active.json`: the result is that of
`active.json` alone, and the dotted directory name plays no part. -/
theorem parsePath_ignores_directory_witness :
    parsePath GOOS.unix (ascii "en.d/active.json") = parsePath GOOS.unix (ascii "active.json") ∧
      parsePath GOOS.unix (ascii "en.d/active.json") = (ascii "active", ascii "json") :=
  ⟨parsePath_ignores_directory GOOS.unix (ascii "en.d") (ascii "active.json") 47
      (by decide) (by decide),
    by decide⟩

/-- C12: for every path without a dot, with or without separators, `parsePath` returns the
empty string for both the locale and the format. -/
theorem parsePath_noDot (goos : GOOS) (path : GoString) (h : ∀ c ∈ path, c ≠ dot) :
    parsePath goos path = ([], []) :=
  parsePathLoop_noDot goos path h path.length

/-- C12 at `path/to/file` and at the empty path. -/
theorem parsePath_noDot_witness :
    parsePath GOOS.unix (ascii "path/to/file") = ([], []) ∧ parsePath GOOS.windows [] = ([], []) :=
  ⟨parsePath_noDot GOOS.unix (ascii "path/to/file") (by decide),
    parsePath_noDot GOOS.windows [] (by decide)⟩

/-! ## `ParseMessageFileBytes`, continued -/

/-- C13 fails as stated: the decoded untyped-key map has the key `a` first and the key `5`,
which is not a string, second; `NewMessage` fails on the value of `a`, and the error
returned is that one, not the key error. -/
theorem parseMessageFileBytes_nonStringKey_counterexample :
    (stubUnmarshalConst
        (Raw.ifaceMap [(Raw.str (ascii "a"), Raw.int 1), (Raw.int 5, Raw.strMap [])]) none)
        (ascii "x")
      = (Raw.ifaceMap [(Raw.str (ascii "a"), Raw.int 1), (Raw.int 5, Raw.strMap [])], none) ∧
      (Raw.int 5).isString = false ∧
      (ParseMessageFileBytes stubExternals (ascii "x") (ascii "en.ymap")
          (some stubUnmarshalFuncsMore)).1
        = Except.error (ParseError.ext (ascii "unsupported type")) ∧
      ∀ k, (ParseMessageFileBytes stubExternals (ascii "x") (ascii "en.ymap")
          (some stubUnmarshalFuncsMore)).1 ≠ Except.error (ParseError.keyNotString k) := by
  have h : (ParseMessageFileBytes stubExternals (ascii "x") (ascii "en.ymap")
      (some stubUnmarshalFuncsMore)).1
        = Except.error (ParseError.ext (ascii "unsupported type")) := by rfl
  refine ⟨rfl, rfl, h, ?_⟩
  intro k hk
  rw [h] at hk
  cases hk

/-- C13, amended: when the decoder, run on the (non-empty) buffer, yields an untyped-key
map in which some key is not a string, `ParseMessageFileBytes` fails and returns no
message file. When `NewMessage` succeeds on every entry before the first such key in the
order of the `range` statement, the error is the key error for that key, after calls of
`NewMessage` on those entries only. Otherwise the error is that of `NewMessage` on the
first of those entries on which it fails, and that call is the last one made. -/
theorem parseMessageFileBytes_nonStringKey {L E F : Type} (x : Externals L E F)
    (buf path : GoString) (funcs : UnmarshalFuncs E) (f : UnmarshalFunc E) (tag : L)
    (entries : List (Raw × Raw)) (kv : Raw × Raw)
    (hlang : x.languageParse (parsePath x.goos path).1 = Except.ok tag)
    (hbuf : buf ≠ [])
    (hfunc : mapIndex funcs (parsePath x.goos path).2 = some f)
    (hraw : f buf = (Raw.ifaceMap entries, none))
    (hkey : entries.find? (fun e => !e.1.isString) = some kv) :
    (∃ err, (ParseMessageFileBytes x buf path (some funcs)).1 = Except.error err ∧
      (err = ParseError.keyNotString kv.1 ∨
        ∃ e ∈ entries.takeWhile (fun e => e.1.isString), ∃ e1,
          x.NewMessage e.2 = Except.error e1 ∧ err = ParseError.ext e1)) ∧
      ((∀ e ∈ entries.takeWhile (fun e => e.1.isString), ∃ m, x.NewMessage e.2 = Except.ok m) →
        ParseMessageFileBytes x buf path (some funcs)
          = (Except.error (ParseError.keyNotString kv.1),
              [Call.languageParse (parsePath x.goos path).1,
                Call.unmarshal (parsePath x.goos path).2 buf]
                ++ (entries.takeWhile (fun e => e.1.isString)).map
                  (fun e => Call.NewMessage e.2))) ∧
      (∀ (pre post : List (Raw × Raw)) (e : Raw × Raw) (e1 : E),
        entries.takeWhile (fun e => e.1.isString) = pre ++ e :: post →
        (∀ a ∈ pre, ∃ m, x.NewMessage a.2 = Except.ok m) →
        x.NewMessage e.2 = Except.error e1 →
        ParseMessageFileBytes x buf path (some funcs)
          = (Except.error (ParseError.ext e1),
              [Call.languageParse (parsePath x.goos path).1,
                Call.unmarshal (parsePath x.goos path).2 buf]
                ++ (pre ++ [e]).map (fun a => Call.NewMessage a.2))) := by
  obtain ⟨err, calls1, h1, h2, _⟩ := rangeInterfaceMap_nonStringKey x.NewMessage kv entries []
    [Call.languageParse (parsePath x.goos path).1,
      Call.unmarshal (parsePath x.goos path).2 buf] hkey
  have hres : (ParseMessageFileBytes x buf path (some funcs)).1 = Except.error err := by
    simp only [ParseMessageFileBytes, hlang, length_beq_zero_of_ne_nil buf hbuf, hfunc, hraw]
    simp [finish, h1]
  refine ⟨⟨err, hres, h2⟩, fun hall => ?_, fun pre post e e1 htake hpre he => ?_⟩
  · have h3 := rangeInterfaceMap_keyError x.NewMessage kv entries []
      [Call.languageParse (parsePath x.goos path).1,
        Call.unmarshal (parsePath x.goos path).2 buf] hkey hall
    simp only [ParseMessageFileBytes, hlang, length_beq_zero_of_ne_nil buf hbuf, hfunc, hraw]
    simp [finish, h3]
  · have h3 := rangeInterfaceMap_firstFailure x.NewMessage e post e1 he pre entries []
      [Call.languageParse (parsePath x.goos path).1,
        Call.unmarshal (parsePath x.goos path).2 buf] htake hpre
    simp only [ParseMessageFileBytes, hlang, length_beq_zero_of_ne_nil buf hbuf, hfunc, hraw]
    simp [finish, h3]

/-- C13, amended, at two maps with the keys `a` and `5` in that order. When `NewMessage`
succeeds on the value of `a`, the result is the key error for `5` after one call of
`NewMessage`; when it fails on the value of `a`, the result is that failure. -/
theorem parseMessageFileBytes_nonStringKey_witness :
    ParseMessageFileBytes stubExternals (ascii "x") (ascii "en.ykey")
        (some stubUnmarshalFuncsMore)
      = (Except.error (ParseError.keyNotString (Raw.int 5)),
          [Call.languageParse (ascii "en"), Call.unmarshal (ascii "ykey") (ascii "x"),
            Call.NewMessage (Raw.strMap [])]) ∧
    ParseMessageFileBytes stubExternals (ascii "x") (ascii "en.ymap")
        (some stubUnmarshalFuncsMore)
      = (Except.error (ParseError.ext (ascii "unsupported type")),
          [Call.languageParse (ascii "en"), Call.unmarshal (ascii "ymap") (ascii "x"),
            Call.NewMessage (Raw.int 1)]) :=
  ⟨(parseMessageFileBytes_nonStringKey stubExternals (ascii "x") (ascii "en.ykey")
      stubUnmarshalFuncsMore
      (stubUnmarshalConst
        (Raw.ifaceMap [(Raw.str (ascii "a"), Raw.strMap []), (Raw.int 5, Raw.strMap [])]) none)
      (ascii "en") [(Raw.str (ascii "a"), Raw.strMap []), (Raw.int 5, Raw.strMap [])]
      (Raw.int 5, Raw.strMap []) (by rfl) (by decide) (by rfl) (by rfl) (by rfl)).2.1
      (by intro e he
          simp [List.takeWhile, Raw.isString] at he
          subst he
          exact ⟨_, rfl⟩),
    (parseMessageFileBytes_nonStringKey stubExternals (ascii "x") (ascii "en.ymap")
      stubUnmarshalFuncsMore
      (stubUnmarshalConst
        (Raw.ifaceMap [(Raw.str (ascii "a"), Raw.int 1), (Raw.int 5, Raw.strMap [])]) none)
      (ascii "en") [(Raw.str (ascii "a"), Raw.int 1), (Raw.int 5, Raw.strMap [])]
      (Raw.int 5, Raw.strMap []) (by rfl) (by decide) (by rfl) (by rfl) (by rfl)).2.2
      [] [] (Raw.str (ascii "a"), Raw.int 1) (ascii "unsupported type") (by rfl)
      (by intro a ha; simp at ha) (by rfl)⟩

/-- C14: when the decoder, run on the (non-empty) buffer, returns no error and leaves a
value that is none of `map[string]interface{}`, `map[interface{}]interface{}` and
`[]interface{}`, `ParseMessageFileBytes` returns the error `unsupported file format` for
that value and no message file, and `NewMessage` is not called. -/
theorem parseMessageFileBytes_unsupportedShape {L E F : Type} (x : Externals L E F)
    (buf path : GoString) (funcs : UnmarshalFuncs E) (f : UnmarshalFunc E) (tag : L)
    (raw : Raw)
    (hlang : x.languageParse (parsePath x.goos path).1 = Except.ok tag)
    (hbuf : buf ≠ [])
    (hfunc : mapIndex funcs (parsePath x.goos path).2 = some f)
    (hraw : f buf = (raw, none))
    (hshape : (∀ es, raw ≠ Raw.strMap es) ∧ (∀ es, raw ≠ Raw.ifaceMap es) ∧
      (∀ es, raw ≠ Raw.slice es)) :
    ParseMessageFileBytes x buf path (some funcs)
      = (Except.error (ParseError.unsupportedFileFormat raw),
          [Call.languageParse (parsePath x.goos path).1,
            Call.unmarshal (parsePath x.goos path).2 buf]) := by
  simp only [ParseMessageFileBytes, hlang, length_beq_zero_of_ne_nil buf hbuf, hfunc, hraw]
  cases raw with
  | strMap es => exact absurd rfl (hshape.1 es)
  | ifaceMap es => exact absurd rfl (hshape.2.1 es)
  | slice es => exact absurd rfl (hshape.2.2 es)
  | nil => rfl
  | bool b => rfl
  | int n => rfl
  | str s => rfl

/-- C14 at a decoder that stores nothing, one that stores a number and one that stores a
string. -/
theorem parseMessageFileBytes_unsupportedShape_witness :
    (ParseMessageFileBytes stubExternals (ascii "x") (ascii "en.nil")
        (some stubUnmarshalFuncsMore)).1
      = Except.error (ParseError.unsupportedFileFormat Raw.nil) ∧
    (ParseMessageFileBytes stubExternals (ascii "x") (ascii "en.int")
        (some stubUnmarshalFuncsMore)).1
      = Except.error (ParseError.unsupportedFileFormat (Raw.int 7)) ∧
    (ParseMessageFileBytes stubExternals (ascii "x") (ascii "en.str")
        (some stubUnmarshalFuncsMore)).1
      = Except.error (ParseError.unsupportedFileFormat (Raw.str (ascii "text"))) :=
  ⟨congrArg Prod.fst (parseMessageFileBytes_unsupportedShape stubExternals (ascii "x")
      (ascii "en.nil") stubUnmarshalFuncsMore (stubUnmarshalConst Raw.nil none) (ascii "en")
      Raw.nil (by rfl) (by decide) (by rfl) (by rfl) (by simp)),
    congrArg Prod.fst (parseMessageFileBytes_unsupportedShape stubExternals (ascii "x")
      (ascii "en.int") stubUnmarshalFuncsMore (stubUnmarshalConst (Raw.int 7) none) (ascii "en")
      (Raw.int 7) (by rfl) (by decide) (by rfl) (by rfl) (by simp)),
    congrArg Prod.fst (parseMessageFileBytes_unsupportedShape stubExternals (ascii "x")
      (ascii "en.str") stubUnmarshalFuncsMore
      (stubUnmarshalConst (Raw.str (ascii "text")) none) (ascii "en")
      (Raw.str (ascii "text")) (by rfl) (by decide) (by rfl) (by rfl) (by simp))⟩

/-- C15: if `NewMessage` fails on an entry of the decoded tree, `ParseMessageFileBytes`
returns exactly that error and no message file. For each of the three shapes, the entry is
the first one in the order of the `range` statement on which `NewMessage` fails (in an
untyped-key map `NewMessage` is called on an entry only when its key and the keys before
it are strings): the result is the error of that entry, and `NewMessage` has been called
on the entries up to that one and on no later entry. Conversely, whatever call of
`NewMessage` fails during a run, it is the last call of the run and its error is the
result. -/
theorem parseMessageFileBytes_constructorFailure {L E F : Type} (x : Externals L E F)
    (buf path : GoString) (unmarshalFuncs : Option (UnmarshalFuncs E)) :
    (∀ d e, Call.NewMessage d ∈ (ParseMessageFileBytes x buf path unmarshalFuncs).2 →
      x.NewMessage d = Except.error e →
      (ParseMessageFileBytes x buf path unmarshalFuncs).1 = Except.error (ParseError.ext e) ∧
        (ParseMessageFileBytes x buf path unmarshalFuncs).2.getLast?
          = some (Call.NewMessage d)) ∧
    (∀ (funcs : UnmarshalFuncs E) (f : UnmarshalFunc E) (tag : L),
      unmarshalFuncs = some funcs →
      x.languageParse (parsePath x.goos path).1 = Except.ok tag →
      buf ≠ [] →
      mapIndex funcs (parsePath x.goos path).2 = some f →
      (∀ (pre post : List Raw) (d : Raw) (e : E),
        f buf = (Raw.slice (pre ++ d :: post), none) →
        (∀ a ∈ pre, ∃ m, x.NewMessage a = Except.ok m) →
        x.NewMessage d = Except.error e →
        ParseMessageFileBytes x buf path unmarshalFuncs
          = (Except.error (ParseError.ext e),
              [Call.languageParse (parsePath x.goos path).1,
                Call.unmarshal (parsePath x.goos path).2 buf]
                ++ (pre ++ [d]).map (fun a => Call.NewMessage a))) ∧
      (∀ (pre post : List (GoString × Raw)) (kd : GoString × Raw) (e : E),
        f buf = (Raw.strMap (pre ++ kd :: post), none) →
        (∀ a ∈ pre, ∃ m, x.NewMessage a.2 = Except.ok m) →
        x.NewMessage kd.2 = Except.error e →
        ParseMessageFileBytes x buf path unmarshalFuncs
          = (Except.error (ParseError.ext e),
              [Call.languageParse (parsePath x.goos path).1,
                Call.unmarshal (parsePath x.goos path).2 buf]
                ++ (pre ++ [kd]).map (fun a => Call.NewMessage a.2))) ∧
      (∀ (entries pre post : List (Raw × Raw)) (kd : Raw × Raw) (e : E),
        f buf = (Raw.ifaceMap entries, none) →
        entries.takeWhile (fun a => a.1.isString) = pre ++ kd :: post →
        (∀ a ∈ pre, ∃ m, x.NewMessage a.2 = Except.ok m) →
        x.NewMessage kd.2 = Except.error e →
        ParseMessageFileBytes x buf path unmarshalFuncs
          = (Except.error (ParseError.ext e),
              [Call.languageParse (parsePath x.goos path).1,
                Call.unmarshal (parsePath x.goos path).2 buf]
                ++ (pre ++ [kd]).map (fun a => Call.NewMessage a.2)))) := by
  constructor
  · intro d e hcall hfail
    have key : ∀ (mf0 : MessageFile L F) (c1 c2 : Call)
        (r : Except (ParseError E) (List (Message F)) × List Call),
        (∀ d1, c1 ≠ Call.NewMessage d1) → (∀ d1, c2 ≠ Call.NewMessage d1) →
        (∃ extra, r.2 = [c1, c2] ++ extra ∧
          ∀ d e, Call.NewMessage d ∈ extra → x.NewMessage d = Except.error e →
            r.1 = Except.error (ParseError.ext e) ∧
              extra.getLast? = some (Call.NewMessage d)) →
        Call.NewMessage d ∈ (finish mf0 r).2 →
        (finish mf0 r).1 = Except.error (ParseError.ext e) ∧
          (finish mf0 r).2.getLast? = some (Call.NewMessage d) := by
      intro mf0 c1 c2 r hc1 hc2 hex hmem
      obtain ⟨extra, h1, h2⟩ := hex
      obtain ⟨hf1, hf2, _⟩ := finish_eq mf0 r
      rw [hf1, h1] at hmem
      have hin : Call.NewMessage d ∈ extra := by
        rcases List.mem_append.mp hmem with h | h
        · rcases List.mem_cons.mp h with h | h
          · exact absurd h.symm (hc1 d)
          · rcases List.mem_cons.mp h with h | h
            · exact absurd h.symm (hc2 d)
            · simp at h
        · exact h
      obtain ⟨h3, h4⟩ := h2 d e hin hfail
      refine ⟨hf2 _ h3, ?_⟩
      rw [hf1, h1]
      cases extra with
      | nil => simp at hin
      | cons a t =>
        exact getLast?_cons_of_some _ _ _ (getLast?_cons_of_some _ _ _ h4)
    simp only [ParseMessageFileBytes] at hcall ⊢
    cases hl : x.languageParse (parsePath x.goos path).1 with
    | error err => simp [hl] at hcall
    | ok tag =>
      simp only [hl] at hcall ⊢
      cases hb : (buf.length == 0) with
      | true => simp [hb] at hcall
      | false =>
        simp only [hb] at hcall ⊢
        cases unmarshalFuncs with
        | none => simp at hcall
        | some funcs =>
          simp only at hcall ⊢
          cases hf : mapIndex funcs (parsePath x.goos path).2 with
          | none => simp [hf] at hcall
          | some f =>
            simp only [hf] at hcall ⊢
            cases he : (f buf).2 with
            | some err => simp [he] at hcall
            | none =>
              simp only [he] at hcall ⊢
              cases hr : (f buf).1 with
              | nil => simp [hr] at hcall
              | bool b => simp [hr] at hcall
              | int n => simp [hr] at hcall
              | str s => simp [hr] at hcall
              | strMap es =>
                simp only [hr] at hcall ⊢
                exact key _ _ _ _ (fun _ h => by cases h) (fun _ h => by cases h)
                  (rangeStringMap_abort x.NewMessage es [] _) hcall
              | ifaceMap es =>
                simp only [hr] at hcall ⊢
                exact key _ _ _ _ (fun _ h => by cases h) (fun _ h => by cases h)
                  (rangeInterfaceMap_abort x.NewMessage es [] _) hcall
              | slice es =>
                simp only [hr] at hcall ⊢
                exact key _ _ _ _ (fun _ h => by cases h) (fun _ h => by cases h)
                  (rangeSlice_abort x.NewMessage es [] _) hcall
  · intro funcs f tag hfuncs hlang hbuf hfunc
    subst hfuncs
    refine ⟨fun pre post d e hraw hpre hd => ?_, fun pre post kd e hraw hpre hd => ?_,
      fun entries pre post kd e hraw htake hpre hd => ?_⟩
    · have h := rangeSlice_firstFailure x.NewMessage d post e hd pre []
        [Call.languageParse (parsePath x.goos path).1,
          Call.unmarshal (parsePath x.goos path).2 buf] hpre
      simp only [ParseMessageFileBytes, hlang, length_beq_zero_of_ne_nil buf hbuf, hfunc, hraw]
      simp [finish, h]
    · have h := rangeStringMap_firstFailure x.NewMessage kd post e hd pre []
        [Call.languageParse (parsePath x.goos path).1,
          Call.unmarshal (parsePath x.goos path).2 buf] hpre
      simp only [ParseMessageFileBytes, hlang, length_beq_zero_of_ne_nil buf hbuf, hfunc, hraw]
      simp [finish, h]
    · have h := rangeInterfaceMap_firstFailure x.NewMessage kd post e hd pre entries []
        [Call.languageParse (parsePath x.goos path).1,
          Call.unmarshal (parsePath x.goos path).2 buf] htake hpre
      simp only [ParseMessageFileBytes, hlang, length_beq_zero_of_ne_nil buf hbuf, hfunc, hraw]
      simp [finish, h]

/-- C15 at a list, a string-keyed map and an untyped-key map, each with a first entry that
`NewMessage` accepts, a second that it rejects and a third: in all three runs the result is
the error of the second entry, after calls of `NewMessage` on the first two entries only. -/
theorem parseMessageFileBytes_constructorFailure_witness :
    stubNewMessage (Raw.int 1) = Except.error (ascii "unsupported type") ∧
      ParseMessageFileBytes stubExternals (ascii "x") (ascii "en.list")
          (some stubUnmarshalFuncsMore)
        = (Except.error (ParseError.ext (ascii "unsupported type")),
            [Call.languageParse (ascii "en"), Call.unmarshal (ascii "list") (ascii "x"),
              Call.NewMessage (Raw.str (ascii "a")), Call.NewMessage (Raw.int 1)]) ∧
      ParseMessageFileBytes stubExternals (ascii "x") (ascii "en.smap")
          (some stubUnmarshalFuncsFailing)
        = (Except.error (ParseError.ext (ascii "unsupported type")),
            [Call.languageParse (ascii "en"), Call.unmarshal (ascii "smap") (ascii "x"),
              Call.NewMessage (Raw.strMap []), Call.NewMessage (Raw.int 1)]) ∧
      ParseMessageFileBytes stubExternals (ascii "x") (ascii "en.imap")
          (some stubUnmarshalFuncsFailing)
        = (Except.error (ParseError.ext (ascii "unsupported type")),
            [Call.languageParse (ascii "en"), Call.unmarshal (ascii "imap") (ascii "x"),
              Call.NewMessage (Raw.strMap []), Call.NewMessage (Raw.int 1)]) :=
  ⟨rfl,
    ((parseMessageFileBytes_constructorFailure stubExternals (ascii "x") (ascii "en.list")
      (some stubUnmarshalFuncsMore)).2 stubUnmarshalFuncsMore
      (stubUnmarshalConst (Raw.slice [Raw.str (ascii "a"), Raw.int 1, Raw.bool true]) none)
      (ascii "en") rfl (by rfl) (by decide) (by rfl)).1
      [Raw.str (ascii "a")] [Raw.bool true] (Raw.int 1) (ascii "unsupported type") (by rfl)
      (by intro a ha
          simp at ha
          subst ha
          exact ⟨_, rfl⟩)
      rfl,
    ((parseMessageFileBytes_constructorFailure stubExternals (ascii "x") (ascii "en.smap")
      (some stubUnmarshalFuncsFailing)).2 stubUnmarshalFuncsFailing
      (stubUnmarshalConst
        (Raw.strMap [(ascii "ok", Raw.strMap []), (ascii "bad", Raw.int 1),
          (ascii "later", Raw.strMap [])]) none)
      (ascii "en") rfl (by rfl) (by decide) (by rfl)).2.1
      [(ascii "ok", Raw.strMap [])] [(ascii "later", Raw.strMap [])] (ascii "bad", Raw.int 1)
      (ascii "unsupported type") (by rfl)
      (by intro a ha
          simp at ha
          subst ha
          exact ⟨_, rfl⟩)
      rfl,
    ((parseMessageFileBytes_constructorFailure stubExternals (ascii "x") (ascii "en.imap")
      (some stubUnmarshalFuncsFailing)).2 stubUnmarshalFuncsFailing
      (stubUnmarshalConst
        (Raw.ifaceMap [(Raw.str (ascii "ok"), Raw.strMap []),
          (Raw.str (ascii "bad"), Raw.int 1), (Raw.int 5, Raw.strMap [])]) none)
      (ascii "en") rfl (by rfl) (by decide) (by rfl)).2.2
      [(Raw.str (ascii "ok"), Raw.strMap []), (Raw.str (ascii "bad"), Raw.int 1),
        (Raw.int 5, Raw.strMap [])]
      [(Raw.str (ascii "ok"), Raw.strMap [])] [] (Raw.str (ascii "bad"), Raw.int 1)
      (ascii "unsupported type") (by rfl) (by rfl)
      (by intro a ha
          simp at ha
          subst ha
          exact ⟨_, rfl⟩)
      rfl⟩

/-- C16: for a non-empty buffer and a path whose locale parses and whose format has a
registered decoder, if the decoder returns an error then `ParseMessageFileBytes` returns
exactly that error and no message file, and `NewMessage` is not called. -/
theorem parseMessageFileBytes_decodeFailure {L E F : Type} (x : Externals L E F)
    (buf path : GoString) (funcs : UnmarshalFuncs E) (f : UnmarshalFunc E) (tag : L)
    (err : E)
    (hlang : x.languageParse (parsePath x.goos path).1 = Except.ok tag)
    (hbuf : buf ≠ [])
    (hfunc : mapIndex funcs (parsePath x.goos path).2 = some f)
    (herr : (f buf).2 = some err) :
    ParseMessageFileBytes x buf path (some funcs)
      = (Except.error (ParseError.ext err),
          [Call.languageParse (parsePath x.goos path).1,
            Call.unmarshal (parsePath x.goos path).2 buf]) := by
  simp only [ParseMessageFileBytes, hlang, length_beq_zero_of_ne_nil buf hbuf, hfunc, herr]
  rfl

/-- C16 at a decoder that returns `decode error`. -/
theorem parseMessageFileBytes_decodeFailure_witness :
    ParseMessageFileBytes stubExternals (ascii "x") (ascii "en.err")
        (some stubUnmarshalFuncsMore)
      = (Except.error (ParseError.ext (ascii "decode error")),
          [Call.languageParse (ascii "en"), Call.unmarshal (ascii "err") (ascii "x")]) :=
  parseMessageFileBytes_decodeFailure stubExternals (ascii "x") (ascii "en.err")
    stubUnmarshalFuncsMore (stubUnmarshalConst Raw.nil (some (ascii "decode error")))
    (ascii "en") (ascii "decode error") (by rfl) (by decide) (by rfl) (by rfl)

/-! ## `Template.parse`, continued -/

/-- C17: for a fresh template whose source contains the left delimiter, `parse` calls the
template engine exactly once, on the source and the two delimiters, stores the compiled
form the engine returned (whether or not it also returned an error), stores the error the
engine returned as the memo and returns that error. -/
theorem parse_fresh_template {C E : Type} (engine : Engine C E) (t : Template C E)
    (leftDelim rightDelim : GoString) (hfresh : t.ParseErr = none)
    (hsrc : Contains t.Src leftDelim = true) :
    ∃ r : ParseReturn C E,
      Template.parse engine t leftDelim rightDelim = some r ∧
      r.engineCalls = [{ src := t.Src, leftDelim := leftDelim, rightDelim := rightDelim }] ∧
      r.t.Template = (engine t.Src leftDelim rightDelim).1 ∧
      r.t.ParseErr = some (engine t.Src leftDelim rightDelim).2 ∧
      r.err = (engine t.Src leftDelim rightDelim).2 ∧
      r.t.Src = t.Src :=
  ⟨_, parse_fresh_compile engine t leftDelim rightDelim hfresh hsrc, rfl, rfl, rfl, rfl, rfl⟩

/-- C17 at a source that compiles: one engine call, the compiled form stored, no error. -/
theorem parse_fresh_template_witness :
    ∃ r : ParseReturn GoString GoString,
      Template.parse stubEngine { Src := helloName, Template := none, ParseErr := none }
          leftBraces rightBraces = some r ∧
      r.engineCalls
        = [{ src := helloName, leftDelim := leftBraces, rightDelim := rightBraces }] ∧
      r.t.Template = some helloName ∧ r.t.ParseErr = some none ∧ r.err = none := by
  obtain ⟨r, h1, h2, h3, h4, h5, _⟩ := parse_fresh_template stubEngine
    { Src := helloName, Template := none, ParseErr := none } leftBraces rightBraces rfl
    (by decide)
  exact ⟨r, h1, h2, h3.trans (by decide), h4.trans (by decide), h5.trans (by decide)⟩

/-! ## `ParseMessageFileBytes`, the remaining properties -/

/-- C18: for an untyped-key map all of whose keys are strings, `ParseMessageFileBytes`
returns what it returns for the string-keyed map with the same entries in the same order:
the same error or the same message file, after the same calls. -/
theorem parseMessageFileBytes_untypedKeys {L E F : Type} (x : Externals L E F)
    (buf path : GoString) (funcs1 funcs2 : UnmarshalFuncs E) (f1 f2 : UnmarshalFunc E)
    (entries : List (GoString × Raw))
    (hfunc1 : mapIndex funcs1 (parsePath x.goos path).2 = some f1)
    (hfunc2 : mapIndex funcs2 (parsePath x.goos path).2 = some f2)
    (hraw1 : f1 buf = (Raw.ifaceMap (entries.map (fun e => (Raw.str e.1, e.2))), none))
    (hraw2 : f2 buf = (Raw.strMap entries, none)) :
    ParseMessageFileBytes x buf path (some funcs1)
      = ParseMessageFileBytes x buf path (some funcs2) := by
  simp only [ParseMessageFileBytes, hfunc1, hfunc2, hraw1, hraw2,
    rangeInterfaceMap_strKeys]

/-- C18 at the map with the one entry `hello`, decoded once with an untyped key and once
with a string key: one message with `ID` equal to `hello` in both cases. -/
theorem parseMessageFileBytes_untypedKeys_witness :
    ParseMessageFileBytes stubExternals (ascii "x") (ascii "en.yaml")
        (some stubUnmarshalFuncsMore)
      = ParseMessageFileBytes stubExternals (ascii "x") (ascii "en.yaml")
        (some [(ascii "yaml", some stubUnmarshalMap)]) ∧
      (ParseMessageFileBytes stubExternals (ascii "x") (ascii "en.yaml")
        (some stubUnmarshalFuncsMore)).1
        = Except.ok { Path := ascii "en.yaml", Tag := ascii "en", Format := ascii "yaml",
                      Messages := [{ ID := ascii "hello", fields := ascii "from map" }] } :=
  ⟨parseMessageFileBytes_untypedKeys stubExternals (ascii "x") (ascii "en.yaml")
      stubUnmarshalFuncsMore [(ascii "yaml", some stubUnmarshalMap)]
      (stubUnmarshalConst (Raw.ifaceMap [(Raw.str (ascii "hello"), Raw.strMap [])]) none)
      stubUnmarshalMap [(ascii "hello", Raw.strMap [])] (by rfl) (by rfl) (by rfl) (by rfl),
    by rfl⟩

/-- C19: whenever `ParseMessageFileBytes` returns a message file, its `Path` is the path
argument, its `Format` is the format `parsePath` returns for the path, and its `Tag` is
what the locale parser returns for the locale string `parsePath` returns for the path. -/
theorem parseMessageFileBytes_fields {L E F : Type} (x : Externals L E F)
    (buf path : GoString) (unmarshalFuncs : Option (UnmarshalFuncs E))
    (mf : MessageFile L F)
    (h : (ParseMessageFileBytes x buf path unmarshalFuncs).1 = Except.ok mf) :
    mf.Path = path ∧ mf.Format = (parsePath x.goos path).2 ∧
      x.languageParse (parsePath x.goos path).1 = Except.ok mf.Tag := by
  simp only [ParseMessageFileBytes] at h
  cases hl : x.languageParse (parsePath x.goos path).1 with
  | error err => simp [hl] at h
  | ok tag =>
    simp only [hl] at h
    have key : ∀ r : Except (ParseError E) (List (Message F)) × List Call,
        (finish { Path := path, Tag := tag, Format := (parsePath x.goos path).2,
                  Messages := [] } r).1 = Except.ok mf →
        mf.Path = path ∧ mf.Format = (parsePath x.goos path).2 ∧
          (Except.ok tag : Except E L) = Except.ok mf.Tag := by
      intro r hr
      obtain ⟨_, _, h3⟩ := finish_eq
        ({ Path := path, Tag := tag, Format := (parsePath x.goos path).2,
           Messages := [] } : MessageFile L F) r
      obtain ⟨h4, h5, h6⟩ := h3 mf hr
      exact ⟨h4, h6, by rw [h5]⟩
    cases hb : (buf.length == 0) with
    | true =>
      simp only [hb, if_true] at h
      injection h with h
      subst h
      exact ⟨rfl, rfl, rfl⟩
    | false =>
      simp only [hb] at h
      cases unmarshalFuncs with
      | none => simp at h
      | some funcs =>
        simp only at h
        cases hf : mapIndex funcs (parsePath x.goos path).2 with
        | none => simp [hf] at h
        | some f =>
          simp only [hf] at h
          cases he : (f buf).2 with
          | some err => simp [he] at h
          | none =>
            simp only [he] at h
            cases hr : (f buf).1 with
            | nil => simp [hr] at h
            | bool b => simp [hr] at h
            | int n => simp [hr] at h
            | str s => simp [hr] at h
            | strMap es => simp only [hr] at h; exact key _ h
            | ifaceMap es => simp only [hr] at h; exact key _ h
            | slice es => simp only [hr] at h; exact key _ h

/-- C19 at `en.json` with a decoded map: the fields of the message file returned. -/
theorem parseMessageFileBytes_fields_witness :
    (ParseMessageFileBytes stubExternals (ascii "x") (ascii "en.json")
        (some stubUnmarshalFuncs)).1
      = Except.ok { Path := ascii "en.json", Tag := ascii "en", Format := ascii "json",
                    Messages := [{ ID := ascii "hello", fields := ascii "from map" }] } ∧
      stubLanguageParse (ascii "en") = Except.ok (ascii "en") :=
  ⟨by rfl, (parseMessageFileBytes_fields stubExternals (ascii "x") (ascii "en.json")
    (some stubUnmarshalFuncs)
    { Path := ascii "en.json", Tag := ascii "en", Format := ascii "json",
      Messages := [{ ID := ascii "hello", fields := ascii "from map" }] } (by rfl)).2.2⟩

/-! ## The shape of the results of `parsePath` -/

/-- C20: for every path, neither result of `parsePath` contains a dot or a path separator;
and when the file name contains a dot, the file name, and so the path, ends with the
locale, a dot and the format. -/
theorem parsePath_results_shape (goos : GOOS) (path : GoString) :
    (∀ c ∈ (parsePath goos path).1, c ≠ dot ∧ IsPathSeparator goos c = false) ∧
      (∀ c ∈ (parsePath goos path).2, c ≠ dot ∧ IsPathSeparator goos c = false) ∧
      (dot ∈ fileName goos path →
        ((parsePath goos path).1 ++ dot :: (parsePath goos path).2) <:+ fileName goos path ∧
        ((parsePath goos path).1 ++ dot :: (parsePath goos path).2) <:+ path) := by
  obtain ⟨p0, hpath, hp0⟩ := fileName_split_sep goos path
  have hshape := parsePath_shape goos p0 (fileName goos path)
    (fileName_noSeparator goos path) hp0
  rw [← hpath] at hshape
  rcases hshape with ⟨hno, hres⟩ | ⟨_, lang, format, hl, hf, hsuf, hres⟩
  · rw [hres]
    exact ⟨by simp, by simp, fun hd => absurd hd hno⟩
  · rw [hres]
    refine ⟨hl, hf, fun _ => ⟨hsuf, ?_⟩⟩
    have hfn : fileName goos path <:+ path := ⟨p0, hpath.symm⟩
    exact hsuf.trans hfn

/-- C20 at `path/to/active.en.toml`: the results `en` and `toml` have no dot and no
separator, and the path ends with `en.toml`. -/
theorem parsePath_results_shape_witness :
    parsePath GOOS.unix (ascii "path/to/active.en.toml") = (ascii "en", ascii "toml") ∧
      (ascii "en" ++ dot :: ascii "toml") <:+ ascii "path/to/active.en.toml" := by
  have h := parsePath_results_shape GOOS.unix (ascii "path/to/active.en.toml")
  have hres : parsePath GOOS.unix (ascii "path/to/active.en.toml")
      = (ascii "en", ascii "toml") := by decide
  rw [hres] at h
  exact ⟨hres, (h.2.2 (by decide)).2⟩

end GoI18n
